import Mathlib

/-!
Verification development for the `gcode_maze` repository.

The repository (src/gcode_maze.py) generates rectangular and circular mazes
with a randomized depth-first growing walk over a cell grid, and encodes the
resulting path fragments as G-code motion instructions.

This file gives a shallow embedding, translated from the Python source:
* `Cell`, `Grid`, `npIdx`, `gridGet`, `gridSet` — the numpy 2-D cell array
  with Python/numpy index semantics (negative indices wrap once, anything
  further out of range is an index error);
* `PathPart`, `addStepList` — the run-length path fragments (`PathPart.add_step`);
* the maze growth machine (`grow`, `machineStep`, `runN`) shared by both maze
  makers (`MazeMakerBase._grow` / `_make_maze`), parameterized by the topology
  (`GrowCfg`), with randomness supplied by an oracle `rng : ℕ → ℕ` (one draw
  per `np.random.choice` call, reduced mod the number of options);
* the rectangular and circular setup (`rectSetup`, `circCheckPoints`,
  `cellsInLayer`) and the two G-code encoders.

Cell values follow the source: 0 = unvisited, 1 = visited/boundary, 2 = exit.
Python floats are modelled as exact real numbers; the source's float
computations stay far from the rounding boundaries used in any claim proved
here.
-/

namespace GM

/-- A cell coordinate `(row, col)`; integers, since Python indices may be
negative (numpy wraps a negative index once). -/
abbrev Cell := ℤ × ℤ

/-- Componentwise addition of a cell and an offset, as in
`(from_cell[0] + dr, from_cell[1] + dc)`. -/
def cadd (a b : Cell) : Cell := (a.1 + b.1, a.2 + b.2)

/-- Errors a run of the Python source can raise: `oob` is an
`IndexError` (index outside a numpy array or a Python list), `key` a
`KeyError`/missing-name error. The source defines no other failure modes
and in particular no configuration-validation error. -/
inductive Err
  | oob
  | key
deriving DecidableEq, Repr

/-- The 2-D numpy array of cell values, row major. -/
abbrev Grid := List (List ℤ)

/-- Python/numpy scalar index resolution for an axis of size `n`:
`0 ≤ i < n` is used as is, `-n ≤ i < 0` wraps to `n + i`, anything else is an
`IndexError`. -/
def npIdx (n : ℕ) (i : ℤ) : Option ℕ :=
  if 0 ≤ i then (if i < (n : ℤ) then some i.toNat else none)
  else (if (n : ℤ) + i ≥ 0 then some ((n : ℤ) + i).toNat else none)

/-- Read `cells[r, c]` with numpy index semantics. -/
def gridGet (g : Grid) (cell : Cell) : Except Err ℤ :=
  match npIdx g.length cell.1 with
  | none => .error .oob
  | some r =>
    let row := g.getD r []
    match npIdx row.length cell.2 with
    | none => .error .oob
    | some c => .ok (row.getD c 0)

/-- Write `cells[r, c] = v` with numpy index semantics. -/
def gridSet (g : Grid) (cell : Cell) (v : ℤ) : Except Err Grid :=
  match npIdx g.length cell.1 with
  | none => .error .oob
  | some r =>
    let row := g.getD r []
    match npIdx row.length cell.2 with
    | none => .error .oob
    | some c => .ok (g.set r (row.set c v))

/-- `np.zeros((nr, nc))`. -/
def zeros (nr nc : ℕ) : Grid := List.replicate nr (List.replicate nc 0)

/-- `cells[r, :] = v`. -/
def setRow (g : Grid) (r : ℕ) (v : ℤ) : Grid :=
  g.set r ((g.getD r []).map (fun _ => v))

/-- `cells[:, c] = v`. -/
def setCol (g : Grid) (c : ℕ) (v : ℤ) : Grid :=
  g.map (fun row => row.set c v)

/-! ### Path fragments (`PathPart`) -/

/-- A path fragment: a start cell plus the recorded steps. A step is stored,
as in the source, as a repetition of one direction character (the source uses
a string such as `"EEE"`); here a step is a `List Char`. -/
structure PathPart where
  start_cell : Cell
  steps : List (List Char)
deriving DecidableEq, Repr

/-- `PathPart.add_step`, acting on the steps list: if the list is empty start
it with `[direction]`; if the last character of the last step equals the new
direction, extend that step; otherwise append a fresh one-character step. -/
def addStepList : List (List Char) → Char → List (List Char)
  | [], d => [[d]]
  | [s], d => if s.getLast? = some d then [s ++ [d]] else [s, [d]]
  | s :: s' :: rest, d => s :: addStepList (s' :: rest) d

/-- `PathPart.add_step`. -/
def PathPart.add_step (p : PathPart) (d : Char) : PathPart :=
  { p with steps := addStepList p.steps d }

/-- Apply `f` to the last element of a list (`xs[-1] = f(xs[-1])`). -/
def modifyLast {α : Type} (f : α → α) : List α → List α
  | [] => []
  | [a] => [f a]
  | a :: a' :: rest => a :: modifyLast f (a' :: rest)

/-! ### Well-formedness of the recorded steps (claim C9) -/

/-- The direction symbol a step run carries (its first character). -/
def runDir (r : List Char) : Char := r.headD ' '

/-- A step run is a nonempty repetition of a single direction character. -/
def uniformRun (r : List Char) : Prop := ∃ d n, 0 < n ∧ r = List.replicate n d

/-- Well-formed step lists: every run is a nonempty single-direction
repetition and no two adjacent runs carry the same direction symbol. -/
def stepsWF : List (List Char) → Prop
  | [] => True
  | [r] => uniformRun r
  | r :: r' :: rest => uniformRun r ∧ runDir r ≠ runDir r' ∧ stepsWF (r' :: rest)


/-! ### The shared growth algorithm (`MazeMakerBase`) -/

/-- The mutable session state of `MazeMakerBase`: cell grid, walk stack
(top of stack at the head, so `stack[-1]` is `stack.head`), recorded path
fragments (source order: active fragment last), the exit-found flag, the last
chosen move, and a counter of random draws consumed so far. -/
structure MazeState where
  cells : Grid
  stack : List Cell
  paths : List PathPart
  found_exit : Bool
  last_move : Option Char
  rnd : ℕ
deriving DecidableEq, Repr

/-- Topology and bias configuration consumed by the growth algorithm:
`checkPoints` is `self._check_points` (a fixed list for the rectangular maze,
recomputed from the stack top for the circular maze), `directions` is
`self._directions`, plus the two bias settings. -/
structure GrowCfg where
  checkPoints : MazeState → Except Err (List Cell)
  directions : List Char
  straight_on_bias : ℕ
  direction_bias : Option (List (Char × ℕ))

/-- `self._dir_to_delta[d]`: the offset zipped with direction `d`
(a missing direction is a `KeyError`). -/
def dirToDelta (cfg : GrowCfg) (s : MazeState) (d : Char) : Except Err Cell := do
  let offs ← cfg.checkPoints s
  match (cfg.directions.zip offs).lookup d with
  | some delta => .ok delta
  | none => .error .key

/-- `MazeMakerBase._cell_step`: record the direction on the active fragment,
push the target cell and mark it visited. -/
def cellStep (cfg : GrowCfg) (s : MazeState) (d : Char) : Except Err MazeState := do
  let paths' := modifyLast (fun p => p.add_step d) s.paths
  let delta ← dirToDelta cfg s d
  match s.stack with
  | [] => .error .oob
  | from_cell :: _ =>
    let to_cell := cadd from_cell delta
    let cells' ← gridSet s.cells to_cell 1
    .ok { s with cells := cells', stack := to_cell :: s.stack, paths := paths' }

/-- Scan the adjacency offsets in order for the first neighbour holding value
`v`, reading each cell in turn (as the `for`/`break` loops in `_grow` and
`_make_maze` do); returns the index of the first hit. -/
def scanFor (cells : Grid) (cur : Cell) (v : ℤ) : List Cell → Except Err (Option ℕ)
  | [] => .ok none
  | off :: rest => do
    let x ← gridGet cells (cadd cur off)
    if x = v then .ok (some 0)
    else do
      let r ← scanFor cells cur v rest
      .ok (r.map (· + 1))

/-- Build `direction_options`: for each direction whose neighbour is
unvisited, one candidate entry, or `direction_bias.get(d, 0) + 1` entries when
a direction bias is configured. -/
def optionsFor (bias : Option (List (Char × ℕ))) (cells : Grid) (cur : Cell) :
    List (Char × Cell) → Except Err (List Char)
  | [] => .ok []
  | (d, off) :: rest => do
    let x ← gridGet cells (cadd cur off)
    let opts ← optionsFor bias cells cur rest
    if x = 0 then
      match bias with
      | none => .ok (d :: opts)
      | some b => .ok (List.replicate ((b.lookup d).getD 0 + 1) d ++ opts)
    else .ok opts

/-- `MazeMakerBase._grow`. Returns the updated state and whether the walk
moved forwards. The random draw for `np.random.choice` is `rng s.rnd` reduced
modulo the number of candidate entries. -/
def grow (cfg : GrowCfg) (rng : ℕ → ℕ) (s : MazeState) :
    Except Err (MazeState × Bool) := do
  match s.stack with
  | [] => .error .oob
  | cur :: _ => do
    let offs ← cfg.checkPoints s
    -- if we've just found the exit is adjacent then the path ends and we backtrack
    let found ← if s.found_exit then pure (none : Option ℕ) else scanFor s.cells cur 2 offs
    match found with
    | some i =>
      -- show the exit with a stump
      let d := cfg.directions.getD i ' '
      .ok ({ s with found_exit := true,
                    paths := modifyLast (fun p => p.add_step d) s.paths }, false)
    | none => do
      let opts ← optionsFor cfg.direction_bias s.cells cur (cfg.directions.zip offs)
      if opts.length = 0 then
        .ok (s, false)
      else
        -- add extra options for a straight-on move if appropriate (an empty
        -- `last_move` contributes nothing, as `"" * k` does in the source)
        let lastIn : Bool := match s.last_move with
          | some lm => opts.contains lm
          | none => false
        let opts2 :=
          if 0 < cfg.straight_on_bias ∧ lastIn then
            opts ++ List.replicate cfg.straight_on_bias ((s.last_move).getD ' ')
          else opts
        let mv := opts2.getD (rng s.rnd % opts2.length) ' '
        let s' ← cellStep cfg { s with rnd := s.rnd + 1 } mv
        .ok ({ s' with last_move := some mv }, true)

/-- The tail of `_grow` once the exit scan has come back empty: build the
direction options, stop at a dead end, otherwise pick a move and step. -/
def growTail (cfg : GrowCfg) (rng : ℕ → ℕ) (s : MazeState) (cur : Cell)
    (offs : List Cell) : Except Err (MazeState × Bool) := do
  let opts ← optionsFor cfg.direction_bias s.cells cur (cfg.directions.zip offs)
  if opts.length = 0 then
    .ok (s, false)
  else
    let lastIn : Bool := match s.last_move with
      | some lm => opts.contains lm
      | none => false
    let opts2 :=
      if 0 < cfg.straight_on_bias ∧ lastIn then
        opts ++ List.replicate cfg.straight_on_bias ((s.last_move).getD ' ')
      else opts
    let mv := opts2.getD (rng s.rnd % opts2.length) ' '
    let s' ← cellStep cfg { s with rnd := s.rnd + 1 } mv
    .ok ({ s' with last_move := some mv }, true)

/-- The phase of the `_make_maze` loop: repeatedly growing forwards,
backtracking (popping while looking for a fresh growth point), or finished. -/
inductive Mode
  | growing
  | backtracking
  | done
deriving DecidableEq, Repr

/-- The whole `_make_maze` loop state. -/
structure Machine where
  mode : Mode
  st : MazeState
deriving DecidableEq, Repr

/-- One step of the `_make_maze` control loop: a growing step is one `_grow`
call; a backtracking step first checks for stack length 2 (termination),
then scans the stack top for an unvisited neighbour — on a hit a fresh path
fragment starts there and growth resumes, otherwise the stack is popped. -/
def machineStep (cfg : GrowCfg) (rng : ℕ → ℕ) (m : Machine) : Except Err Machine :=
  match m.mode with
  | .done => .ok m
  | .growing => do
    let (s', moved) ← grow cfg rng m.st
    .ok ⟨if moved then .growing else .backtracking, s'⟩
  | .backtracking =>
    if m.st.stack.length = 2 then .ok ⟨.done, m.st⟩
    else
      match m.st.stack with
      | [] => .error .oob
      | top :: rest => do
        let offs ← cfg.checkPoints m.st
        let r ← scanFor m.st.cells top 0 offs
        match r with
        | some _ => .ok ⟨.growing, { m.st with paths := m.st.paths ++ [⟨top, []⟩] }⟩
        | none => .ok ⟨.backtracking, { m.st with stack := rest }⟩

/-- Run `n` machine steps (stepping a finished machine leaves it unchanged). -/
def runN (cfg : GrowCfg) (rng : ℕ → ℕ) : ℕ → Machine → Except Err Machine
  | 0, m => .ok m
  | n + 1, m => do
    let m' ← machineStep cfg rng m
    runN cfg rng n m'

/-! ### The rectangular maze maker -/

/-- `RectangularMazeMaker._check_points` (row, col offsets). -/
def rectCheckPoints : List Cell := [(-1, 0), (1, 0), (0, -1), (0, 1)]

/-- `RectangularMazeMaker._directions`, ordered to match `rectCheckPoints`. -/
def rectDirections : List Char := ['N', 'S', 'W', 'E']

/-- Growth configuration of a `RectangularMazeMaker`. -/
def rectCfg (sob : ℕ) (db : Option (List (Char × ℕ))) : GrowCfg :=
  ⟨fun _ => .ok rectCheckPoints, rectDirections, sob, db⟩

/-- The grid as initialised by `RectangularMazeMaker.make_maze`: zeros with
all four boundary rows/columns pre-filled with 1. -/
def rectInitCells (rows cols : ℕ) : Grid :=
  setCol (setRow (setCol (setRow (zeros (rows + 2) (cols + 2)) 0 1) 0 1) (rows + 1) 1) (cols + 1) 1

/-- Mark one row segment of the centre void visited:
`cells[r, left_col + cc] = 1` for `cc < vc`. -/
def markVoidRow (g : Grid) (r left_col : ℤ) : ℕ → Except Err Grid
  | 0 => .ok g
  | n + 1 => do
    let g' ← markVoidRow g r left_col n
    gridSet g' (r, left_col + n) 1

/-- Mark the centre void visited: `vr` rows starting at `top_row`, each of
`vc` cells starting at `left_col`. -/
def markVoid (g : Grid) (top_row left_col : ℤ) (vr vc : ℕ) : Except Err Grid :=
  match vr with
  | 0 => .ok g
  | n + 1 => do
    let g' ← markVoid g top_row left_col n vc
    markVoidRow g' (top_row + n) left_col vc

/-- The centre-void block of `RectangularMazeMaker.make_maze`: runs when a
void is requested or the end type is centre; `top_row`/`left_col` use Python
floor division (relevant when the void is larger than the grid). Returns
`(top_row, left_col, void_rows, void_cols)`. -/
def rectVoidInfo (rows cols : ℕ) (end_type : String) (centre_void : Option (ℕ × ℕ)) :
    Option (ℤ × ℤ × ℕ × ℕ) :=
  if centre_void.isSome ∨ end_type = "centre" then
    let v := centre_void.getD (2 + rows % 2, 2 + cols % 2)
    some (Int.fdiv ((rows : ℤ) - v.1) 2 + 1, Int.fdiv ((cols : ℤ) - v.2) 2 + 1, v.1, v.2)
  else none

/-- The grid after the optional centre-void marking. -/
def rectCells1 (rows cols : ℕ) (end_type : String) (centre_void : Option (ℕ × ℕ)) :
    Except Err Grid :=
  match rectVoidInfo rows cols end_type centre_void with
  | some (tr, lc, vr, vc) => markVoid (rectInitCells rows cols) tr lc vr vc
  | none => .ok (rectInitCells rows cols)

/-- The exit cell chosen by `RectangularMazeMaker.make_maze` (centre end type
without a void block would be a Python `NameError`, modelled as an error). -/
def rectExitCell (rows cols : ℕ) (end_type : String) (centre_void : Option (ℕ × ℕ)) :
    Except Err Cell :=
  let mid_col : ℤ := ((cols + 1) / 2 : ℕ)
  if end_type = "centre" then
    match rectVoidInfo rows cols end_type centre_void with
    | some (tr, _, vr, _) => .ok ((tr + vr - 1 : ℤ), mid_col)
    | none => .error .key
  else
    .ok (((rows : ℤ) + 1), mid_col + ((cols : ℤ) - 1) % 2)

/-- The setup part of `RectangularMazeMaker.make_maze`: build the grid,
optionally pre-mark the centre void, and place the exit cell. Returns the
prepared grid, the entrance cell and the exit cell. -/
def rectSetup (rows cols : ℕ) (end_type : String) (centre_void : Option (ℕ × ℕ)) :
    Except Err (Grid × Cell × Cell) := do
  let mid_col : ℤ := ((cols + 1) / 2 : ℕ)
  let cells1 ← rectCells1 rows cols end_type centre_void
  let exit_cell ← rectExitCell rows cols end_type centre_void
  let cells2 ← gridSet cells1 exit_cell 2
  .ok (cells2, ((0 : ℤ), mid_col), exit_cell)

/-- `RectangularMazeMaker.make_maze` up to the start of the growth loop:
setup, then `_make_maze`'s initialisation (stack `[entrance]`, one fresh path
fragment, the forced first step south). Returns the initial machine (in
growing phase) and the exit cell. -/
def rectStart (rows cols : ℕ) (end_type : String) (centre_void : Option (ℕ × ℕ))
    (sob : ℕ) (db : Option (List (Char × ℕ))) : Except Err (Machine × Cell) := do
  let (cells, entrance, exit_cell) ← rectSetup rows cols end_type centre_void
  let s0 : MazeState := ⟨cells, [entrance], [⟨entrance, []⟩], false, none, 0⟩
  let s1 ← cellStep (rectCfg sob db) s0 'S'
  .ok (⟨.growing, { s1 with found_exit := false, last_move := none }⟩, exit_cell)

/-- A full run of `RectangularMazeMaker.make_maze` with `fuel` machine steps. -/
def rectRun (rows cols : ℕ) (end_type : String) (centre_void : Option (ℕ × ℕ))
    (sob : ℕ) (db : Option (List (Char × ℕ))) (rng : ℕ → ℕ) (fuel : ℕ) :
    Except Err Machine := do
  let (m0, _) ← rectStart rows cols end_type centre_void sob db
  runN (rectCfg sob db) rng fuel m0

/-! ### Observation helpers -/

instance instDecEqExcept {ε α : Type} [DecidableEq ε] [DecidableEq α] :
    DecidableEq (Except ε α) := fun x y =>
  match x, y with
  | .ok a, .ok b =>
    if h : a = b then isTrue (congrArg Except.ok h)
    else isFalse (fun hc => h (Except.ok.inj hc))
  | .error a, .error b =>
    if h : a = b then isTrue (congrArg Except.error h)
    else isFalse (fun hc => h (Except.error.inj hc))
  | .ok _, .error _ => isFalse (fun hc => Except.noConfusion hc)
  | .error _, .ok _ => isFalse (fun hc => Except.noConfusion hc)

/-- The value of a cell at nonnegative coordinates (pure accessor used to
state invariants; out-of-range reads default to 0). -/
def valAt (g : Grid) (cell : Cell) : ℤ :=
  (g.getD cell.1.toNat []).getD cell.2.toNat 0

/-- How many cells of the grid hold value `v`. -/
def countVal (g : Grid) (v : ℤ) : ℕ :=
  (g.map (fun row => row.countP (fun x => decide (x = v)))).sum

/-- Number of unvisited cells. -/
def unvisited (g : Grid) : ℕ := countVal g 0

/-- The rectangular offset of a direction character (`_dir_to_delta` of the
rectangular maker, which zips `rectDirections` with `rectCheckPoints`). -/
def rectDelta (d : Char) : Cell :=
  ((rectDirections.zip rectCheckPoints).lookup d).getD (0, 0)

/-- The cells a fragment's steps successively point into, replaying its
characters from its start cell with the given direction-to-offset map. -/
def fragTargetsAux (delta : Char → Cell) : Cell → List Char → List Cell
  | _, [] => []
  | pos, d :: ds =>
    let t := cadd pos (delta d)
    t :: fragTargetsAux delta t ds

/-- All cells the steps of a fragment point into, in order. -/
def fragTargets (delta : Char → Cell) (p : PathPart) : List Cell :=
  fragTargetsAux delta p.start_cell p.steps.flatten

/-- How many steps of the fragment point into the cell `E`. -/
def exitCnt (delta : Char → Cell) (E : Cell) (p : PathPart) : ℕ :=
  (fragTargets delta p).count E

/-- How many recorded fragments contain at least one step pointing into `E`
(replayed with the rectangular offsets). -/
def exitFragCount (E : Cell) (m : Machine) : ℕ :=
  m.st.paths.countP (fun p => decide (0 < exitCnt rectDelta E p))

/-- Observe a successful run's result. -/
def onOk {α : Type} (f : Machine → α) (x : Except Err Machine) : Option α :=
  x.toOption.map f

/-! ### The circular maze maker -/

/-- Python list indexing on `cells_in_layer` (negative indices wrap once). -/
def pyGet (L : List ℕ) (i : ℤ) : Except Err ℕ :=
  match npIdx L.length i with
  | some k => .ok (L.getD k 0)
  | none => .error .oob

/-- `int(...)` applied to the exact quotient `a / b`: truncation towards
zero (all uses in scope have nonnegative operands, where the source's float
division is exact). -/
def pyTrunc (a b : ℤ) : ℤ := Int.tdiv a b

/-- `CircularMazeMaker._check_points` computed for a stack-top cell: the
anticlockwise/clockwise neighbours wrap within the current layer's cell
count, and the radial in/out neighbours proportionally map the angular index
to the adjacent layer's cell count. From the innermost layer the inward
offset is `(0, 0)`. (The source's `if from_layer == len(...)` branch is dead
code — it only executes `pass` — and is not modelled.) -/
def circCheckPoints (L : List ℕ) (cell : Cell) : Except Err (List Cell) := do
  let from_layer := cell.1 - 1
  let from_cell := cell.2
  let n_in_from ← pyGet L from_layer
  let a : Cell := (0, if 0 < from_cell then -1 else (n_in_from : ℤ) - 1)
  let c : Cell := (0, if from_cell < (n_in_from : ℤ) - 1 then 1 else 1 - (n_in_from : ℤ))
  let i : Cell ←
    if 0 < from_layer then do
      let n_in ← pyGet L (from_layer - 1)
      .ok (((-1 : ℤ), pyTrunc ((n_in : ℤ) * from_cell) (n_in_from : ℤ) - from_cell) : Cell)
    else
      .ok (((0 : ℤ), (0 : ℤ)) : Cell)
  let n_out ← pyGet L (from_layer + 1)
  let o : Cell := (1, pyTrunc ((n_out : ℤ) * from_cell) (n_in_from : ℤ) - from_cell)
  .ok [a, c, i, o]

/-- `_check_points` as the growth algorithm consumes it: evaluated at the
current stack top. -/
def circCheckPointsM (L : List ℕ) (s : MazeState) : Except Err (List Cell) :=
  match s.stack with
  | [] => .error .oob
  | cur :: _ => circCheckPoints L cur

/-- `CircularMazeMaker._directions`: anticlockwise, clockwise, in, out. -/
def circDirections : List Char := ['A', 'C', 'I', 'O']

/-- Growth configuration of a `CircularMazeMaker` whose computed
`cells_in_layer` list is `L`. -/
def circCfg (L : List ℕ) (sob : ℕ) (db : Option (List (Char × ℕ))) : GrowCfg :=
  ⟨circCheckPointsM L, circDirections, sob, db⟩

/-- The circular grid as initialised by `CircularMazeMaker.make_maze`:
`layers + 2` rows of `cells_in_layer[-1]` cells, rows 0 and `layers + 1`
pre-filled with 1. -/
def circInitCells (layers width : ℕ) : Grid :=
  setRow (setRow (zeros (layers + 2) width) 0 1) (layers + 1) 1

/-- The setup part of `CircularMazeMaker.make_maze`, given the computed
`cells_in_layer` list `L`: build the grid and place the exit on the outer
boundary row at the middle column. Returns grid, entrance, exit. -/
def circSetupL (layers : ℕ) (L : List ℕ) : Except Err (Grid × Cell × Cell) := do
  let width := L.getLastD 0
  let cells0 := circInitCells layers width
  let mid_col : ℤ := (width / 2 : ℕ)
  let exit_cell : Cell := ((layers : ℤ) + 1, mid_col)
  let cells1 ← gridSet cells0 exit_cell 2
  .ok (cells1, ((0 : ℤ), (0 : ℤ)), exit_cell)

/-- `CircularMazeMaker.make_maze` up to the start of the growth loop, given
the computed `cells_in_layer` list: setup plus `_make_maze`'s initialisation
(stack `[(0, 0)]`, one fresh fragment, the forced first step outwards). -/
def circStartL (layers : ℕ) (L : List ℕ) (sob : ℕ) (db : Option (List (Char × ℕ))) :
    Except Err (Machine × Cell) := do
  let (cells, entrance, exit_cell) ← circSetupL layers L
  let s0 : MazeState := ⟨cells, [entrance], [⟨entrance, []⟩], false, none, 0⟩
  let s1 ← cellStep (circCfg L sob db) s0 'O'
  .ok (⟨.growing, { s1 with found_exit := false, last_move := none }⟩, exit_cell)

/-- `inner_r`: the inner radius in working units,
`centre_void + inner_layer_cells / (2π)`. -/
noncomputable def innerRadius (centre_void inner_layer_cells : ℕ) : ℝ :=
  (centre_void : ℝ) + (inner_layer_cells : ℝ) / (2 * Real.pi)

/-- `int((l + inner_r) // inner_r)`: the multiplier applied to the innermost
cell count at layer index `l`. -/
noncomputable def layerRatio (r : ℝ) (l : ℕ) : ℤ := ⌊((l : ℝ) + r) / r⌋

/-- `CircularMazeMaker.make_maze`'s `cells_in_layer`: one entry per layer
(`inner_layer_cells` times the floor ratio), with the final entry duplicated
for the boundary row of the cell array. -/
noncomputable def cellsInLayer (layers inner_layer_cells centre_void : ℕ) : List ℕ :=
  let r := innerRadius centre_void inner_layer_cells
  let base := (List.range layers).map (fun l => inner_layer_cells * (layerRatio r l).toNat)
  base ++ [base.getLastD 0]

/-! ### The rectangular G-code encoder -/

/-- One axis word of a relative move, as produced by the `gcode_steps`
format templates (`"X{length}"`, `"Y-{length}"`, …). -/
inductive AxisWord
  | X (v : ℚ)
  | Y (v : ℚ)
deriving DecidableEq, Repr

/-- One output line of `RectangularMazeMaker._encode_path`. Numeric fields
carry the exact values the source interpolates into the line. -/
inductive RectGLine
  | g90
  | g91
  | g0Z (z : ℚ)
  | g0XY (x y : ℚ)
  | g1ZF (z f : ℚ)
  | g1Move (words : List AxisWord) (f : ℚ)
deriving DecidableEq, Repr

/-- The `gcode_steps` template table of the rectangular maker, applied to a
length: N/S/E/W move one axis, A/B/C/D are the diagonals. An unknown
direction would be a `KeyError` in the source; it yields no axis words here
and is unreachable from recorded fragments. -/
def gcodeSteps (d : Char) (len : ℚ) : List AxisWord :=
  if d = 'N' then [.Y (-len)]
  else if d = 'S' then [.Y len]
  else if d = 'E' then [.X len]
  else if d = 'W' then [.X (-len)]
  else if d = 'A' then [.X len, .Y (-len)]
  else if d = 'B' then [.X len, .Y len]
  else if d = 'C' then [.X (-len), .Y len]
  else if d = 'D' then [.X (-len), .Y (-len)]
  else []

/-- `RectangularMazeMaker._encode_path`: preamble (absolute mode, raise to
clearance, move to the fragment start, plunge, relative mode), one relative
move per step run of magnitude `step_size * run_length`, postamble (absolute
mode, raise to clearance). A fragment with no steps encodes to nothing. -/
def encodePathR (p : PathPart) (step_size doc clearance plunge feed : ℚ)
    (origin : ℚ × ℚ) : List RectGLine :=
  if p.steps.length = 0 then []
  else
    let y : ℚ := step_size * ((p.start_cell.1 : ℚ) - 1) - origin.2
    let x : ℚ := step_size * ((p.start_cell.2 : ℚ) - 1) - origin.1
    [.g90, .g0Z clearance, .g0XY x y, .g1ZF doc plunge, .g91]
      ++ p.steps.map (fun step =>
           .g1Move (gcodeSteps (step.headD ' ') (step_size * (step.length : ℚ))) feed)
      ++ [.g90, .g0Z clearance]

/-! ### The circular G-code encoder -/

/-- One output line of `CircularMazeMaker._encode_path`. Coordinates are the
exact real values; the source's 3-decimal text formatting of them is
abstracted. `gArc` is `G2` when `clockwise` is true, else `G3`; `i`/`j` are
the arc-centre offsets relative to the arc start. -/
inductive CircGLine
  | g90
  | g0Z (z : ℝ)
  | g0XY (x y : ℝ)
  | g1ZF (z f : ℝ)
  | g1XY (x y f : ℝ)
  | gArc (clockwise : Bool) (x y i j f : ℝ)

/-- The encoder state tracked across a circular fragment:
`last = (x, y, theta, layer)`. -/
structure CircLast where
  x : ℝ
  y : ℝ
  theta : ℝ
  layer : ℤ

/-- `self.cells_in_layer[i]` inside the circular encoder (total accessor; an
out-of-range index would be an `IndexError` in the source and is unreachable
for fragments recorded on the grid). -/
def layerCount (L : List ℕ) (i : ℤ) : ℕ :=
  match npIdx L.length i with
  | some k => L.getD k 0
  | none => 0

/-- The body of `CircularMazeMaker._encode_path`'s loop for one step run:
radial runs emit a linear move projected along the current heading; angular
runs emit one arc (`G2` clockwise / `G3` anticlockwise) to the endpoint at
angle `theta ± 2π·run_length / cells_in_layer[layer]` on the current layer's
radius, with centre offsets `(-last_x, -last_y)`; other characters emit
nothing. Returns the emitted lines and the updated `last` state. -/
noncomputable def circSegment (L : List ℕ) (innerR step_size feed : ℝ)
    (last : CircLast) (step : List Char) : List CircGLine × CircLast :=
  let hd := step.headD ' '
  if hd = 'I' ∨ hd = 'O' then
    let del_layers : ℤ := if hd = 'O' then (step.length : ℤ) else -(step.length : ℤ)
    let step_len : ℝ := step_size * (del_layers : ℝ)
    let x := last.x + step_len * Real.sin last.theta
    let y := last.y + step_len * Real.cos last.theta
    ([.g1XY x y feed], ⟨x, y, last.theta, last.layer + del_layers⟩)
  else if hd = 'A' ∨ hd = 'C' then
    let s : ℝ := if hd = 'C' then 1 else -1
    let theta := last.theta + s * 2 * Real.pi * (step.length : ℝ) / (layerCount L last.layer : ℝ)
    let radius := (innerR + (last.layer : ℝ)) * step_size
    let x := Real.sin theta * radius
    let y := Real.cos theta * radius
    ([.gArc (hd = 'C') x y (-last.x) (-last.y) feed], ⟨x, y, theta, last.layer⟩)
  else ([], last)

/-- `CircularMazeMaker._encode_path`: convert the start cell to Cartesian
coordinates, emit the preamble, fold `circSegment` over the step runs, and
finish with a clearance raise. A fragment with no steps encodes to nothing. -/
noncomputable def encodePathC (L : List ℕ) (innerR : ℝ) (p : PathPart)
    (step_size doc clearance plunge feed : ℝ) : List CircGLine :=
  if p.steps.length = 0 then []
  else
    let r := p.start_cell.1
    let c := p.start_cell.2
    let radius := (innerR + (r : ℝ) - 1) * step_size
    let theta := 2 * Real.pi * (c : ℝ) / (layerCount L (r - 1) : ℝ)
    let x := Real.sin theta * radius
    let y := Real.cos theta * radius
    let folded := p.steps.foldl
      (fun (acc : List CircGLine × CircLast) st =>
        let out := circSegment L innerR step_size feed acc.2 st
        (acc.1 ++ out.1, out.2))
      ([], ⟨x, y, theta, r - 1⟩)
    [.g90, .g0Z clearance, .g0XY x y, .g1ZF doc plunge] ++ folded.1 ++ [.g0Z clearance]

/-! ### Proof infrastructure: invariants and the termination measure -/


/-- `setVal g cell v`: the grid after an in-range write (what a successful
`gridSet` at nonnegative coordinates produces). -/
def setVal (g : Grid) (cell : Cell) (v : ℤ) : Grid :=
  g.set cell.1.toNat ((g.getD cell.1.toNat []).set cell.2.toNat v)

/-- Grid evolution during one run: every cell either keeps its value or goes
from unvisited (0) to visited (1). -/
def gridMono (g g' : Grid) : Prop :=
  ∀ c : Cell, valAt g' c = valAt g c ∨ (valAt g c = 0 ∧ valAt g' c = 1)

/-- The shape of one rectangular machine transition: which `_make_maze` event
happened (move, dead end, exit stub, stack pop, backtrack-to-growth hand-off,
finish, or an already-finished no-op) and how the state changed. -/
def StepShape (m m' : Machine) : Prop :=
  (∃ t rest off mv,
      m.mode = .growing ∧ m'.mode = .growing
      ∧ m.st.stack = t :: rest ∧ off ∈ rectCheckPoints
      ∧ valAt m.st.cells (cadd t off) = 0
      ∧ (cadd t off).1.toNat < m.st.cells.length
      ∧ (cadd t off).2.toNat < (m.st.cells.getD (cadd t off).1.toNat []).length
      ∧ m'.st.cells = setVal m.st.cells (cadd t off) 1
      ∧ m'.st.stack = cadd t off :: t :: rest
      ∧ m'.st.paths = modifyLast (fun p => p.add_step mv) m.st.paths
      ∧ rectDelta mv = off
      ∧ m'.st.found_exit = m.st.found_exit)
  ∨ (m.mode = .growing ∧ m'.mode = .backtracking ∧ m'.st = m.st)
  ∨ (∃ t rest i, ∃ h : i < rectCheckPoints.length,
      m.mode = .growing ∧ m'.mode = .backtracking
      ∧ m.st.stack = t :: rest
      ∧ m.st.found_exit = false ∧ m'.st.found_exit = true
      ∧ valAt m.st.cells (cadd t (rectCheckPoints.get ⟨i, h⟩)) = 2
      ∧ m'.st.cells = m.st.cells ∧ m'.st.stack = m.st.stack
      ∧ m'.st.paths
          = modifyLast (fun p => p.add_step (rectDirections.getD i ' ')) m.st.paths)
  ∨ (m.mode = .backtracking ∧ m'.mode = .backtracking
      ∧ m'.st.cells = m.st.cells ∧ (∃ t, m.st.stack = t :: m'.st.stack)
      ∧ m'.st.paths = m.st.paths ∧ m'.st.found_exit = m.st.found_exit)
  ∨ (∃ t rest, m.mode = .backtracking ∧ m'.mode = .growing
      ∧ m.st.stack = t :: rest
      ∧ m'.st = { m.st with paths := m.st.paths ++ [⟨t, []⟩] })
  ∨ (m.mode = .backtracking ∧ m'.mode = .done ∧ m'.st = m.st)
  ∨ (m.mode = .done ∧ m' = m)

/-- The cell a fragment's replay ends in. -/
def fragEnd (delta : Char → Cell) (p : PathPart) : Cell :=
  (fragTargets delta p).getLastD p.start_cell

/-- How many steps of a fragment point into a cell holding the exit state in
the reference grid `g0`. -/
def exitStepCnt (g0 : Grid) (p : PathPart) : ℕ :=
  (fragTargets rectDelta p).countP (fun c => decide (valAt g0 c = 2))

/-! ### Proof-side invariants and measure -/

/-- An interior cell of the rectangular grid. -/
def interior (rows cols : ℕ) (cell : Cell) : Prop :=
  1 ≤ cell.1 ∧ cell.1 ≤ (rows : ℤ) ∧ 1 ≤ cell.2 ∧ cell.2 ≤ (cols : ℤ)

/-- The grid has its declared rectangular dimensions. -/
def gridOK (rows cols : ℕ) (g : Grid) : Prop :=
  g.length = rows + 2 ∧ ∀ row ∈ g, row.length = cols + 2

/-- No boundary cell is unvisited (the source pre-fills the border, and every
later write stores a nonzero state). -/
def boundaryOK (rows cols : ℕ) (g : Grid) : Prop :=
  ∀ cell : Cell, 0 ≤ cell.1 → cell.1 ≤ (rows : ℤ) + 1 → 0 ≤ cell.2 →
    cell.2 ≤ (cols : ℤ) + 1 →
    (cell.1 = 0 ∨ cell.1 = (rows : ℤ) + 1 ∨ cell.2 = 0 ∨ cell.2 = (cols : ℤ) + 1) →
    valAt g cell ≠ 0

/-- The walk stack keeps its bottom (entrance) entry, everything above it is
interior, and it never shrinks below two entries. -/
def stackOK (rows cols : ℕ) (stack : List Cell) : Prop :=
  2 ≤ stack.length ∧
  ∃ tops e, stack = tops ++ [e] ∧ ∀ c ∈ tops, interior rows cols c

/-- The invariant that keeps a rectangular growth-machine step safe (no index
errors) and productive. -/
def InvT (rows cols : ℕ) (m : Machine) : Prop :=
  gridOK rows cols m.st.cells ∧ boundaryOK rows cols m.st.cells
  ∧ stackOK rows cols m.st.stack ∧ m.st.paths ≠ []
  ∧ (m.mode = .done → m.st.stack.length = 2)

/-- The termination measure: 4 per unvisited cell, 4 while the exit is
undiscovered, 1 per stack entry, 1 while growing. Every machine step except
the backtrack-to-growth hand-off strictly decreases it, and that hand-off is
immediately followed by a step that decreases it by at least 3. -/
def measureM (m : Machine) : ℕ :=
  4 * unvisited m.st.cells + (if m.st.found_exit then 0 else 4)
  + m.st.stack.length + (if m.mode = .growing then 1 else 0)

/-- The grid-level run invariant: machine invariant, monotone evolution from
the reference grid `g0` (the grid as the run started), and a preserved number
of exit cells. -/
def GridInv (rows cols : ℕ) (g0 : Grid) (m : Machine) : Prop :=
  InvT rows cols m ∧ gridMono g0 m.st.cells ∧ countVal m.st.cells 2 = countVal g0 2

/-- The fragment-level run invariant: the recorded fragments contain exactly
one step pointing into an exit cell once the exit is found and none before;
an exit-pointing step can only sit at the very end of its fragment; while
growing, the active fragment replays to the stack top and carries no exit
stub; and no stack entry is an exit cell. -/
def PathsInv (g0 : Grid) (m : Machine) : Prop :=
  (m.st.paths.map (exitStepCnt g0)).sum = (if m.st.found_exit then 1 else 0)
  ∧ (∀ p ∈ m.st.paths, ∀ i : ℕ, i < (fragTargets rectDelta p).length →
      valAt g0 ((fragTargets rectDelta p).getD i ((0 : ℤ), (0 : ℤ))) = 2
      → i + 1 = (fragTargets rectDelta p).length)
  ∧ (m.mode = .growing →
      fragEnd rectDelta (m.st.paths.getLastD ⟨(0, 0), []⟩) = m.st.stack.headD (0, 0))
  ∧ (m.mode = .growing → m.st.found_exit = true →
      exitStepCnt g0 (m.st.paths.getLastD ⟨(0, 0), []⟩) = 0)
  ∧ (∀ c ∈ m.st.stack, valAt g0 c ≠ 2)

/-! ## Lemmas and theorems -/

lemma runDir_replicate (n : ℕ) (d : Char) (hn : 0 < n) :
    runDir (List.replicate n d) = d := by
  cases n with
  | zero => omega
  | succ m => simp [runDir, List.replicate_succ]

lemma uniformRun_getLast? {r : List Char} (h : uniformRun r) :
    r.getLast? = some (runDir r) := by
  obtain ⟨d, n, hn, rfl⟩ := h
  rw [runDir_replicate n d hn]
  cases n with
  | zero => omega
  | succ m =>
    have hne : List.replicate (m + 1) d ≠ [] := by simp
    rw [List.getLast?_eq_getLast _ hne]
    simp [List.getLast_replicate]

lemma uniformRun_append {r : List Char} (h : uniformRun r) :
    uniformRun (r ++ [runDir r]) := by
  obtain ⟨d, n, hn, rfl⟩ := h
  rw [runDir_replicate n d hn]
  exact ⟨d, n + 1, by omega, by rw [List.replicate_succ' n d]⟩

lemma runDir_append_self (r : List Char) (d : Char) (h : uniformRun r) :
    runDir (r ++ [d]) = runDir r := by
  obtain ⟨e, n, hn, rfl⟩ := h
  cases n with
  | zero => omega
  | succ m => simp [runDir, List.replicate_succ]

lemma uniformRun_single (d : Char) : uniformRun [d] :=
  ⟨d, 1, by omega, by simp⟩

lemma stepsWF_head {r : List Char} {rest : List (List Char)}
    (h : stepsWF (r :: rest)) : uniformRun r := by
  cases rest with
  | nil => exact h
  | cons r' rest' => exact h.1

/-- `addStepList` on a nonempty list yields a nonempty list whose head run
keeps its direction symbol. -/
lemma addStepList_cons_head (r : List Char) (rest : List (List Char)) (d : Char)
    (hu : uniformRun r) :
    ∃ q qs, addStepList (r :: rest) d = q :: qs ∧ runDir q = runDir r := by
  cases rest with
  | nil =>
    by_cases hlast : r.getLast? = some d
    · exact ⟨r ++ [d], [], by simp [addStepList, hlast], runDir_append_self r d hu⟩
    · exact ⟨r, [[d]], by simp [addStepList, hlast], rfl⟩
  | cons r' rest' => exact ⟨r, addStepList (r' :: rest') d, rfl, rfl⟩

/-- One `add_step` call preserves well-formedness of the steps list. -/
lemma stepsWF_addStepList {ss : List (List Char)} (d : Char) (h : stepsWF ss) :
    stepsWF (addStepList ss d) := by
  induction ss with
  | nil => exact uniformRun_single d
  | cons r rest ih =>
    cases rest with
    | nil =>
      by_cases hlast : r.getLast? = some d
      · have hu : uniformRun r := h
        have hdir : runDir r = d := by
          have := uniformRun_getLast? hu
          rw [hlast] at this
          exact (Option.some_injective _ this).symm
        simp only [addStepList, if_pos hlast]
        have := uniformRun_append hu
        rw [hdir] at this
        exact this
      · simp only [addStepList, if_neg hlast]
        refine ⟨h, ?_, uniformRun_single d⟩
        intro hcon
        apply hlast
        have := uniformRun_getLast? h
        rw [hcon] at this
        simpa [runDir] using this
    | cons r' rest' =>
      obtain ⟨hu, hne, hwf⟩ := h
      have hrec := ih hwf
      obtain ⟨q, qs, heq, hdir⟩ := addStepList_cons_head r' rest' d (stepsWF_head hwf)
      have hstep : addStepList (r :: r' :: rest') d = r :: addStepList (r' :: rest') d := rfl
      rw [hstep, heq]
      rw [heq] at hrec
      exact ⟨hu, by rw [hdir]; exact hne, hrec⟩

/-- Claim C9: after any sequence of `add_step` calls starting from an empty
fragment, every recorded step run is a nonempty repetition of a single
direction symbol and no two adjacent runs carry the same symbol (consecutive
identical directions are merged at append time). -/
theorem C9_fragment_runs_wellformed (ds : List Char) :
    stepsWF (ds.foldl addStepList []) := by
  have gen : ∀ (ds : List Char) (ss : List (List Char)), stepsWF ss →
      stepsWF (ds.foldl addStepList ss) := by
    intro ds
    induction ds with
    | nil => intro ss h; exact h
    | cons d ds ih =>
      intro ss h
      exact ih _ (stepsWF_addStepList d h)
  exact gen ds [] trivial

/-! ### Generic access lemmas -/

lemma npIdx_eq_some {n : ℕ} {i : ℤ} (h0 : 0 ≤ i) (hlt : i < (n : ℤ)) :
    npIdx n i = some i.toNat := by
  simp [npIdx, h0, hlt]

lemma pyGet_eq_ok {L : List ℕ} {i : ℤ} (h0 : 0 ≤ i) (hlt : i < (L.length : ℤ)) :
    pyGet L i = .ok (L.getD i.toNat 0) := by
  simp [pyGet, npIdx_eq_some h0 hlt]

lemma gridGet_eq_ok {g : Grid} {cell : Cell}
    (h0 : 0 ≤ cell.1) (h1 : cell.1 < (g.length : ℤ))
    (h2 : 0 ≤ cell.2) (h3 : cell.2 < ((g.getD cell.1.toNat []).length : ℤ)) :
    gridGet g cell = .ok (valAt g cell) := by
  simp only [gridGet, npIdx_eq_some h0 h1, npIdx_eq_some h2 h3, valAt]

lemma getD_mem {α : Type} {L : List α} {k : ℕ} (d : α) (hk : k < L.length) :
    L.getD k d ∈ L := by
  rw [List.getD_eq_getElem?_getD, List.getElem?_eq_getElem hk]
  exact List.getElem_mem hk

lemma getLastD_eq_getLast {α : Type} (L : List α) (d : α) (h : L ≠ []) :
    L.getLastD d = L.getLast h := by
  cases L with
  | nil => exact absurd rfl h
  | cons a l =>
    rw [List.getLastD_eq_getLast?, List.getLast?_eq_getLast _ h]
    simp

lemma sorted_getD_le_getLastD {L : List ℕ} (hs : L.Sorted (· ≤ ·)) {k : ℕ}
    (hk : k < L.length) : L.getD k 0 ≤ L.getLastD 0 := by
  have hne : L ≠ [] := by intro h; subst h; simp at hk
  have h2 : L.length - 1 < L.length := by omega
  have hrel := hs.rel_get_of_le (a := ⟨k, hk⟩) (b := ⟨L.length - 1, h2⟩)
    (by simp [Fin.le_def]; omega)
  rw [List.getD_eq_getElem?_getD, List.getElem?_eq_getElem hk]
  have hlast : L.getLastD 0 = L.getLast hne := by
    cases L with
    | nil => simp at hne
    | cons a l => simp [List.getLastD_eq_getLast?, List.getLast?_eq_getLast]
  rw [hlast, List.getLast_eq_getElem]
  simpa using hrel

lemma pyTrunc_mul_nonneg {a c n : ℤ} (ha : 0 ≤ a) (hc : 0 ≤ c) (hn : 0 < n) :
    0 ≤ pyTrunc (a * c) n := by
  rw [pyTrunc, Int.tdiv_eq_ediv (by positivity) hn.le]
  exact Int.ediv_nonneg (by positivity) hn.le

lemma pyTrunc_mul_lt {a c n : ℤ} (ha : 0 < a) (hc : 0 ≤ c) (hn : 0 < n) (hcn : c < n) :
    pyTrunc (a * c) n < a := by
  rw [pyTrunc, Int.tdiv_eq_ediv (by positivity) hn.le, Int.ediv_lt_iff_lt_mul hn]
  exact mul_lt_mul_of_pos_left hcn ha

lemma ok_bind {e a b : Type} (x : a) (f : a → Except e b) :
    (Except.ok x : Except e a) >>= f = f x := rfl

/-- Every direction delivered by `optionsFor` stems from a pair whose target
cell reads back as unvisited. -/
lemma optionsFor_mem {bias : Option (List (Char × ℕ))} {cells : Grid} {cur : Cell}
    {pairs : List (Char × Cell)} {opts : List Char}
    (hok : optionsFor bias cells cur pairs = .ok opts) {d : Char} (hd : d ∈ opts) :
    ∃ off, (d, off) ∈ pairs ∧ gridGet cells (cadd cur off) = .ok 0 := by
  induction pairs generalizing opts with
  | nil =>
    have h2 : (Except.ok ([] : List Char) : Except Err (List Char)) = .ok opts := hok
    injection h2 with h3
    subst h3
    exact absurd hd (List.not_mem_nil d)
  | cons p rest ih =>
    obtain ⟨d', off'⟩ := p
    simp only [optionsFor] at hok
    cases hget : gridGet cells (cadd cur off') with
    | error e => rw [hget] at hok; cases hok
    | ok x =>
      rw [hget] at hok
      cases hrest : optionsFor bias cells cur rest with
      | error e => rw [hrest] at hok; cases hok
      | ok opts' =>
        rw [hrest] at hok
        simp only [ok_bind] at hok
        by_cases hx : x = 0
        · subst hx
          cases bias with
          | none =>
            simp only [if_pos rfl] at hok
            cases hok
            rcases List.mem_cons.mp hd with rfl | hmem
            · exact ⟨off', List.mem_cons_self _ _, hget⟩
            · obtain ⟨off, hoff, hval⟩ := ih hrest hmem
              exact ⟨off, List.mem_cons_of_mem _ hoff, hval⟩
          | some b =>
            simp only [if_pos rfl] at hok
            cases hok
            rcases List.mem_append.mp hd with hmem | hmem
            · have : d = d' := List.eq_of_mem_replicate hmem
              subst this
              exact ⟨off', List.mem_cons_self _ _, hget⟩
            · obtain ⟨off, hoff, hval⟩ := ih hrest hmem
              exact ⟨off, List.mem_cons_of_mem _ hoff, hval⟩
        · rw [if_neg hx] at hok
          cases bias with
          | none =>
            cases hok
            obtain ⟨off, hoff, hval⟩ := ih hrest hd
            exact ⟨off, List.mem_cons_of_mem _ hoff, hval⟩
          | some b =>
            cases hok
            obtain ⟨off, hoff, hval⟩ := ih hrest hd
            exact ⟨off, List.mem_cons_of_mem _ hoff, hval⟩

/-- Computation of `_check_points` from the innermost layer (row 1). -/
lemma circCheckPoints_innermost {L : List ℕ} {c : ℤ} (hlen : 2 ≤ L.length) :
    circCheckPoints L (1, c) =
      .ok [(0, if 0 < c then -1 else (L.getD 0 0 : ℤ) - 1),
           (0, if c < (L.getD 0 0 : ℤ) - 1 then 1 else 1 - (L.getD 0 0 : ℤ)),
           (0, 0),
           (1, pyTrunc ((L.getD 1 0 : ℤ) * c) (L.getD 0 0 : ℤ) - c)] := by
  have h0 : pyGet L 0 = .ok (L.getD 0 0) := by
    have := pyGet_eq_ok (L := L) (i := 0) le_rfl (by exact_mod_cast Nat.lt_of_lt_of_le Nat.zero_lt_two hlen)
    simpa using this
  have h1 : pyGet L 1 = .ok (L.getD 1 0) := by
    have := pyGet_eq_ok (L := L) (i := 1) (by norm_num) (by exact_mod_cast hlen)
    simpa using this
  simp only [circCheckPoints, sub_self, h0, ok_bind, zero_add, h1]
  norm_num

/-- Computation of `_check_points` from a non-innermost layer (row ≥ 2). -/
lemma circCheckPoints_outer {L : List ℕ} {r c : ℤ} (hr : 2 ≤ r) (hlt : r < (L.length : ℤ)) :
    circCheckPoints L (r, c) =
      .ok [(0, if 0 < c then -1 else (L.getD (r - 1).toNat 0 : ℤ) - 1),
           (0, if c < (L.getD (r - 1).toNat 0 : ℤ) - 1 then 1
               else 1 - (L.getD (r - 1).toNat 0 : ℤ)),
           (-1, pyTrunc ((L.getD (r - 2).toNat 0 : ℤ) * c) (L.getD (r - 1).toNat 0 : ℤ) - c),
           (1, pyTrunc ((L.getD r.toNat 0 : ℤ) * c) (L.getD (r - 1).toNat 0 : ℤ) - c)] := by
  have hfl : pyGet L (r - 1) = .ok (L.getD (r - 1).toNat 0) :=
    pyGet_eq_ok (by omega) (by omega)
  have hin : pyGet L (r - 1 - 1) = .ok (L.getD (r - 2).toNat 0) := by
    have := pyGet_eq_ok (L := L) (i := r - 2) (by omega) (by omega)
    have he : r - 1 - 1 = r - 2 := by ring
    rw [he]
    exact this
  have hout : pyGet L (r - 1 + 1) = .ok (L.getD r.toNat 0) := by
    have := pyGet_eq_ok (L := L) (i := r) (by omega) hlt
    have he : r - 1 + 1 = r := by ring
    rw [he]
    exact this
  have hpos : (0 : ℤ) < r - 1 := by omega
  simp only [circCheckPoints, hfl, ok_bind, if_pos hpos, hin, hout]

/-- Claim C10: for every stack-top cell reachable during circular growth
(row `1 ≤ r ≤ layers`, column `0 ≤ c <` that layer's cell count), the four
offsets returned by `_check_points` address cells inside the allocated
`(layers+2) × cells_in_layer[-1]` array: the anticlockwise and clockwise
targets wrap within the layer's own cell count, the outward target column
`int(cells_in_layer[r] · c / cells_in_layer[r−1])` is strictly below
`cells_in_layer[r]`, the inward offset from the innermost layer is `(0, 0)`
— the current, already Visited, cell itself, so an inward move from the
innermost layer is never a growth candidate — and every adjacency lookup
reads inside the array. (Hypotheses: `L` is positive and nondecreasing with
one extra boundary entry, which the computed `cells_in_layer` satisfies.) -/
theorem C10_circ_check_points_in_bounds (L : List ℕ) (layers : ℕ) (r c : ℤ)
    (cells : Grid) (db : Option (List (Char × ℕ)))
    (hL : L.length = layers + 1)
    (hpos : ∀ x ∈ L, 0 < x)
    (hsorted : L.Sorted (· ≤ ·))
    (hr1 : 1 ≤ r) (hrle : r ≤ (layers : ℤ))
    (hc0 : 0 ≤ c) (hclt : c < (L.getD (r - 1).toNat 0 : ℤ))
    (hrows : cells.length = layers + 2)
    (hcols : ∀ row ∈ cells, row.length = L.getLastD 0)
    (hcur : valAt cells (r, c) = 1) :
    ∃ a cc i o, circCheckPoints L (r, c) = .ok [a, cc, i, o]
      ∧ (a.1 = 0 ∧ 0 ≤ c + a.2 ∧ c + a.2 < (L.getD (r - 1).toNat 0 : ℤ))
      ∧ (cc.1 = 0 ∧ 0 ≤ c + cc.2 ∧ c + cc.2 < (L.getD (r - 1).toNat 0 : ℤ))
      ∧ (o.1 = 1 ∧ 0 ≤ c + o.2 ∧ c + o.2 < (L.getD r.toNat 0 : ℤ))
      ∧ (r = 1 → i = (0, 0))
      ∧ (∀ off ∈ [a, cc, i, o], ∃ v, gridGet cells (cadd (r, c) off) = .ok v)
      ∧ (r = 1 → ∀ opts,
            optionsFor db cells (r, c) (circDirections.zip [a, cc, i, o]) = .ok opts →
            'I' ∉ opts) := by
  have hrowlen : ∀ k : ℕ, k < cells.length → (cells.getD k []).length = L.getLastD 0 :=
    fun k hk => hcols _ (getD_mem [] hk)
  have hread : ∀ (row col : ℤ), 0 ≤ row → row < (layers : ℤ) + 2 → 0 ≤ col →
      col < (L.getLastD 0 : ℤ) → ∃ v, gridGet cells (row, col) = .ok v := by
    intro row col h0 h1 h2 h3
    refine ⟨valAt cells (row, col), gridGet_eq_ok h0 ?_ h2 ?_⟩
    · rw [hrows]; push_cast; omega
    · rw [hrowlen row.toNat (by omega)]; exact h3
  by_cases hreq : r = 1
  · -- innermost layer
    subst hreq
    have hclt1 : c < (L.getD 0 0 : ℤ) := by simpa using hclt
    have hn_pos : 0 < L.getD 0 0 := hpos _ (getD_mem 0 (by omega))
    have hnout_pos : 0 < L.getD 1 0 := hpos _ (getD_mem 0 (by omega))
    have hn_W : L.getD 0 0 ≤ L.getLastD 0 := sorted_getD_le_getLastD hsorted (by omega)
    have hnout_W : L.getD 1 0 ≤ L.getLastD 0 := sorted_getD_le_getLastD hsorted (by omega)
    have ho_lo : 0 ≤ pyTrunc ((L.getD 1 0 : ℤ) * c) (L.getD 0 0 : ℤ) :=
      pyTrunc_mul_nonneg (by positivity) hc0 (by exact_mod_cast hn_pos)
    have ho_hi : pyTrunc ((L.getD 1 0 : ℤ) * c) (L.getD 0 0 : ℤ) < (L.getD 1 0 : ℤ) :=
      pyTrunc_mul_lt (by exact_mod_cast hnout_pos) hc0 (by exact_mod_cast hn_pos) hclt1
    have haB : 0 ≤ c + (if 0 < c then (-1 : ℤ) else (L.getD 0 0 : ℤ) - 1)
        ∧ c + (if 0 < c then (-1 : ℤ) else (L.getD 0 0 : ℤ) - 1) < (L.getD 0 0 : ℤ) := by
      by_cases h : 0 < c
      · rw [if_pos h]; omega
      · rw [if_neg h]; omega
    have hccB : 0 ≤ c + (if c < (L.getD 0 0 : ℤ) - 1 then (1 : ℤ) else 1 - (L.getD 0 0 : ℤ))
        ∧ c + (if c < (L.getD 0 0 : ℤ) - 1 then (1 : ℤ) else 1 - (L.getD 0 0 : ℤ))
            < (L.getD 0 0 : ℤ) := by
      by_cases h : c < (L.getD 0 0 : ℤ) - 1
      · rw [if_pos h]; omega
      · rw [if_neg h]; omega
    have hW' : (L.getD 0 0 : ℤ) ≤ (L.getLastD 0 : ℤ) := by exact_mod_cast hn_W
    have hWout' : (L.getD 1 0 : ℤ) ≤ (L.getLastD 0 : ℤ) := by exact_mod_cast hnout_W
    have hlen2 : 2 ≤ L.length := by omega
    refine ⟨_, _, _, _, circCheckPoints_innermost hlen2,
      ⟨rfl, haB.1, haB.2⟩, ⟨rfl, hccB.1, hccB.2⟩,
      ⟨rfl, by omega, by
        show c + (pyTrunc ((L.getD 1 0 : ℤ) * c) (L.getD 0 0 : ℤ) - c) < (L.getD 1 0 : ℤ)
        omega⟩, fun _ => rfl, ?_, ?_⟩
    · -- all four reads are in bounds
      intro off hoff
      simp only [List.mem_cons, List.not_mem_nil, or_false] at hoff
      rcases hoff with rfl | rfl | rfl | rfl
      · exact hread _ _ (by omega) (by omega) (by omega) (by omega)
      · exact hread _ _ (by omega) (by omega) (by omega) (by omega)
      · exact hread _ _ (by omega) (by omega) (by omega) (by omega)
      · exact hread _ _ (by omega) (by omega) (by omega) (by omega)
    · -- an inward move from the innermost layer is never a growth candidate
      intro _ opts hok hI
      obtain ⟨off, hoffmem, hval⟩ := optionsFor_mem hok hI
      simp only [circDirections, List.zip_cons_cons, List.zip_nil_right, List.mem_cons,
        List.not_mem_nil, or_false, Prod.mk.injEq] at hoffmem
      rcases hoffmem with ⟨h, _⟩ | ⟨h, _⟩ | ⟨_, rfl⟩ | ⟨h, _⟩
      · exact absurd h (by decide)
      · exact absurd h (by decide)
      · have hz : cadd ((1 : ℤ), c) ((0 : ℤ), (0 : ℤ)) = ((1 : ℤ), c) := by
          simp [cadd]
        rw [hz] at hval
        have hok1 : gridGet cells ((1 : ℤ), c) = .ok 1 := by
          have hg := @gridGet_eq_ok cells ((1 : ℤ), c) (by norm_num)
            (by rw [hrows]; push_cast; omega) hc0
            (by rw [hrowlen (1 : ℤ).toNat (by omega)]; omega)
          rw [hg, hcur]
        rw [hok1] at hval
        have h10 : (1 : ℤ) = 0 := Except.ok.inj hval
        omega
      · exact absurd h (by decide)
  · -- a layer further out
    have hr2 : 2 ≤ r := by omega
    have hk1 : (r - 1).toNat < L.length := by omega
    have hk2 : r.toNat < L.length := by omega
    have hk3 : (r - 2).toNat < L.length := by omega
    have hn_pos : 0 < L.getD (r - 1).toNat 0 := hpos _ (getD_mem 0 hk1)
    have hnout_pos : 0 < L.getD r.toNat 0 := hpos _ (getD_mem 0 hk2)
    have hnin_pos : 0 < L.getD (r - 2).toNat 0 := hpos _ (getD_mem 0 hk3)
    have hn_W : L.getD (r - 1).toNat 0 ≤ L.getLastD 0 := sorted_getD_le_getLastD hsorted hk1
    have hnout_W : L.getD r.toNat 0 ≤ L.getLastD 0 := sorted_getD_le_getLastD hsorted hk2
    have hnin_W : L.getD (r - 2).toNat 0 ≤ L.getLastD 0 := sorted_getD_le_getLastD hsorted hk3
    have ho_lo : 0 ≤ pyTrunc ((L.getD r.toNat 0 : ℤ) * c) (L.getD (r - 1).toNat 0 : ℤ) :=
      pyTrunc_mul_nonneg (by positivity) hc0 (by exact_mod_cast hn_pos)
    have ho_hi : pyTrunc ((L.getD r.toNat 0 : ℤ) * c) (L.getD (r - 1).toNat 0 : ℤ)
        < (L.getD r.toNat 0 : ℤ) :=
      pyTrunc_mul_lt (by exact_mod_cast hnout_pos) hc0 (by exact_mod_cast hn_pos) hclt
    have hi_lo : 0 ≤ pyTrunc ((L.getD (r - 2).toNat 0 : ℤ) * c) (L.getD (r - 1).toNat 0 : ℤ) :=
      pyTrunc_mul_nonneg (by positivity) hc0 (by exact_mod_cast hn_pos)
    have hi_hi : pyTrunc ((L.getD (r - 2).toNat 0 : ℤ) * c) (L.getD (r - 1).toNat 0 : ℤ)
        < (L.getD (r - 2).toNat 0 : ℤ) :=
      pyTrunc_mul_lt (by exact_mod_cast hnin_pos) hc0 (by exact_mod_cast hn_pos) hclt
    have haB : 0 ≤ c + (if 0 < c then (-1 : ℤ) else (L.getD (r - 1).toNat 0 : ℤ) - 1)
        ∧ c + (if 0 < c then (-1 : ℤ) else (L.getD (r - 1).toNat 0 : ℤ) - 1)
            < (L.getD (r - 1).toNat 0 : ℤ) := by
      by_cases h : 0 < c
      · rw [if_pos h]; omega
      · rw [if_neg h]; omega
    have hccB : 0 ≤ c + (if c < (L.getD (r - 1).toNat 0 : ℤ) - 1 then (1 : ℤ)
            else 1 - (L.getD (r - 1).toNat 0 : ℤ))
        ∧ c + (if c < (L.getD (r - 1).toNat 0 : ℤ) - 1 then (1 : ℤ)
            else 1 - (L.getD (r - 1).toNat 0 : ℤ)) < (L.getD (r - 1).toNat 0 : ℤ) := by
      by_cases h : c < (L.getD (r - 1).toNat 0 : ℤ) - 1
      · rw [if_pos h]; omega
      · rw [if_neg h]; omega
    have hW' : (L.getD (r - 1).toNat 0 : ℤ) ≤ (L.getLastD 0 : ℤ) := by exact_mod_cast hn_W
    have hWout' : (L.getD r.toNat 0 : ℤ) ≤ (L.getLastD 0 : ℤ) := by exact_mod_cast hnout_W
    have hWin' : (L.getD (r - 2).toNat 0 : ℤ) ≤ (L.getLastD 0 : ℤ) := by exact_mod_cast hnin_W
    refine ⟨_, _, _, _, circCheckPoints_outer hr2 (by omega),
      ⟨rfl, haB.1, haB.2⟩, ⟨rfl, hccB.1, hccB.2⟩,
      ⟨rfl, by omega, by omega⟩, fun h => absurd h (by omega), ?_,
      fun h => absurd h (by omega)⟩
    intro off hoff
    simp only [List.mem_cons, List.not_mem_nil, or_false] at hoff
    rcases hoff with rfl | rfl | rfl | rfl
    · exact hread _ _ (by omega) (by omega) (by omega) (by omega)
    · exact hread _ _ (by omega) (by omega) (by omega) (by omega)
    · exact hread _ _ (by omega) (by omega) (by omega) (by omega)
    · exact hread _ _ (by omega) (by omega) (by omega) (by omega)

lemma innerRadius_pos {cv inner : ℕ} (hi : 1 ≤ inner) : 0 < innerRadius cv inner := by
  have h1 : (0 : ℝ) ≤ (cv : ℝ) := Nat.cast_nonneg cv
  have h2 : (0 : ℝ) < (inner : ℝ) / (2 * Real.pi) := by
    apply div_pos
    · exact_mod_cast hi
    · positivity
  simp only [innerRadius]
  linarith

lemma layerRatio_one_le {r : ℝ} (hr : 0 < r) (l : ℕ) : 1 ≤ layerRatio r l := by
  simp only [layerRatio]
  rw [Int.le_floor]
  rw [le_div_iff₀ hr]
  push_cast
  have : (0 : ℝ) ≤ (l : ℝ) := Nat.cast_nonneg l
  linarith

lemma layerRatio_mono {r : ℝ} (hr : 0 < r) {l m : ℕ} (h : l ≤ m) :
    layerRatio r l ≤ layerRatio r m := by
  apply Int.floor_le_floor
  rw [div_le_div_iff_of_pos_right hr]
  have : (l : ℝ) ≤ (m : ℝ) := by exact_mod_cast h
  linarith

/-- The computed `cells_in_layer` list satisfies the structural hypotheses of
the adjacency-bounds theorem: `layers + 1` entries, all positive, and
nondecreasing (so the duplicated final entry is the array width and the
largest count). -/
lemma cellsInLayer_valid (layers inner cv : ℕ) (hl : 1 ≤ layers) (hi : 1 ≤ inner) :
    (cellsInLayer layers inner cv).length = layers + 1
    ∧ (∀ x ∈ cellsInLayer layers inner cv, 0 < x)
    ∧ (cellsInLayer layers inner cv).Sorted (· ≤ ·) := by
  have hr : 0 < innerRadius cv inner := innerRadius_pos hi
  set r := innerRadius cv inner with hrdef
  set f : ℕ → ℕ := fun l => inner * (layerRatio r l).toNat with hfdef
  have hfpos : ∀ l, 0 < f l := by
    intro l
    have h1 : 1 ≤ layerRatio r l := layerRatio_one_le hr l
    have h2 : 1 ≤ (layerRatio r l).toNat := by omega
    exact Nat.mul_pos hi h2
  have hfmono : ∀ {l m : ℕ}, l ≤ m → f l ≤ f m := by
    intro l m h
    exact Nat.mul_le_mul_left inner (Int.toNat_le_toNat (layerRatio_mono hr h))
  have hbase : cellsInLayer layers inner cv =
      (List.range layers).map f ++ [((List.range layers).map f).getLastD 0] := rfl
  set base := (List.range layers).map f with hbasedef
  have hbase_pos : ∀ x ∈ base, 0 < x := by
    intro x hx
    obtain ⟨l, _, rfl⟩ := List.mem_map.mp hx
    exact hfpos l
  have hbase_ne : base ≠ [] := by
    simp [hbasedef, List.map_eq_nil_iff, List.range_eq_nil]
    omega
  have hlast_mem : base.getLastD 0 ∈ base := by
    rw [getLastD_eq_getLast base 0 hbase_ne]
    exact List.getLast_mem hbase_ne
  have hbase_sorted : base.Sorted (· ≤ ·) := by
    rw [hbasedef, List.Sorted, List.pairwise_map]
    exact (List.pairwise_lt_range layers).imp (fun h => hfmono (Nat.le_of_lt h))
  refine ⟨by simp [hbase, hbasedef], ?_, ?_⟩
  · intro x hx
    rw [hbase] at hx
    rcases List.mem_append.mp hx with hx | hx
    · exact hbase_pos x hx
    · rcases List.mem_singleton.mp hx with rfl
      exact hbase_pos _ hlast_mem
  · rw [hbase, List.Sorted, List.pairwise_append]
    refine ⟨hbase_sorted, by simp, ?_⟩
    intro a ha b hb
    rcases List.mem_singleton.mp hb with rfl
    obtain ⟨⟨k, hk⟩, rfl⟩ := List.mem_iff_get.mp ha
    have h1 : base.get ⟨k, hk⟩ = base.getD k 0 := by
      rw [List.getD_eq_getElem _ _ hk]
      rfl
    rw [h1]
    exact sorted_getD_le_getLastD hbase_sorted hk

/-- A concrete 5×12 circular grid (layers = 3, `cells_in_layer = [6, 6, 12, 12]`)
with the stack-top cell `(1, 3)` Visited; used by the C10 witness. -/
def c10Cells : Grid :=
  [List.replicate 12 1,
   [0, 0, 0, 1, 0, 0, 0, 0, 0, 0, 0, 0],
   List.replicate 12 0,
   List.replicate 12 0,
   List.replicate 12 1]

theorem C10_circ_check_points_in_bounds_witness :
    (([6, 6, 12, 12] : List ℕ).length = 3 + 1
     ∧ (∀ x ∈ ([6, 6, 12, 12] : List ℕ), 0 < x)
     ∧ ([6, 6, 12, 12] : List ℕ).Sorted (· ≤ ·)
     ∧ (1 : ℤ) ≤ 1 ∧ (1 : ℤ) ≤ ((3 : ℕ) : ℤ)
     ∧ (0 : ℤ) ≤ 3 ∧ (3 : ℤ) < (([6, 6, 12, 12] : List ℕ).getD ((1 : ℤ) - 1).toNat 0 : ℤ)
     ∧ c10Cells.length = 3 + 2
     ∧ (∀ row ∈ c10Cells, row.length = ([6, 6, 12, 12] : List ℕ).getLastD 0)
     ∧ valAt c10Cells (1, 3) = 1)
    ∧ (∃ a cc i o, circCheckPoints [6, 6, 12, 12] ((1 : ℤ), (3 : ℤ)) = .ok [a, cc, i, o]
      ∧ (a.1 = 0 ∧ 0 ≤ (3 : ℤ) + a.2
          ∧ (3 : ℤ) + a.2 < (([6, 6, 12, 12] : List ℕ).getD ((1 : ℤ) - 1).toNat 0 : ℤ))
      ∧ (cc.1 = 0 ∧ 0 ≤ (3 : ℤ) + cc.2
          ∧ (3 : ℤ) + cc.2 < (([6, 6, 12, 12] : List ℕ).getD ((1 : ℤ) - 1).toNat 0 : ℤ))
      ∧ (o.1 = 1 ∧ 0 ≤ (3 : ℤ) + o.2
          ∧ (3 : ℤ) + o.2 < (([6, 6, 12, 12] : List ℕ).getD (1 : ℤ).toNat 0 : ℤ))
      ∧ ((1 : ℤ) = 1 → i = (0, 0))
      ∧ (∀ off ∈ [a, cc, i, o], ∃ v, gridGet c10Cells (cadd (1, 3) off) = .ok v)
      ∧ ((1 : ℤ) = 1 → ∀ opts,
            optionsFor none c10Cells (1, 3) (circDirections.zip [a, cc, i, o]) = .ok opts →
            'I' ∉ opts)) :=
  ⟨⟨by decide, by decide, by decide, by decide, by decide, by decide, by decide,
    by decide, by decide, by decide⟩,
   C10_circ_check_points_in_bounds [6, 6, 12, 12] 3 1 3 c10Cells none
     (by decide) (by decide) (by decide) (by decide) (by decide) (by decide)
     (by decide) (by decide) (by decide) (by decide)⟩

/-! ### Claim C1: `cells_in_layer` for layers=3, inner_layer_cells=6, centre_void=1 -/

lemma innerRadius_1_6_gt_one : 1 < innerRadius 1 6 := by
  have h : (0 : ℝ) < (6 : ℝ) / (2 * Real.pi) := by positivity
  simp only [innerRadius]
  push_cast
  linarith

lemma innerRadius_1_6_lt_two : innerRadius 1 6 < 2 := by
  have hπ : (3 : ℝ) < Real.pi := Real.pi_gt_three
  have hp : (0 : ℝ) < 2 * Real.pi := by positivity
  have h : (6 : ℝ) / (2 * Real.pi) < 1 := by
    rw [div_lt_one hp]
    linarith
  simp only [innerRadius]
  push_cast
  linarith

lemma cellsInLayer_3_6_1 : cellsInLayer 3 6 1 = [6, 6, 12, 12] := by
  have hr1 : 1 < innerRadius 1 6 := innerRadius_1_6_gt_one
  have hr2 : innerRadius 1 6 < 2 := innerRadius_1_6_lt_two
  have hr0 : 0 < innerRadius 1 6 := by linarith
  set r := innerRadius 1 6 with hr
  have h0 : layerRatio r 0 = 1 := by
    simp only [layerRatio, Nat.cast_zero, zero_add]
    rw [div_self (ne_of_gt hr0)]
    exact Int.floor_one
  have h1 : layerRatio r 1 = 1 := by
    simp only [layerRatio]
    rw [Int.floor_eq_iff]
    constructor
    · rw [le_div_iff₀ hr0]; push_cast; linarith
    · rw [div_lt_iff₀ hr0]; push_cast; linarith
  have h2 : layerRatio r 2 = 2 := by
    simp only [layerRatio]
    rw [Int.floor_eq_iff]
    constructor
    · rw [le_div_iff₀ hr0]; push_cast; linarith
    · rw [div_lt_iff₀ hr0]; push_cast; linarith
  simp only [cellsInLayer, List.range_succ, List.range_zero, List.map_append,
    List.map_cons, List.map_nil, ← hr, h0, h1, h2]
  rfl

/-- Claim C1, counterexample: with layers=3, inner_layer_cells=6,
centre_void=1 the computed `cells_in_layer` is not `[6, 12, 12, 12]`. -/
theorem C1_cells_in_layer_counterexample : cellsInLayer 3 6 1 ≠ [6, 12, 12, 12] := by
  rw [cellsInLayer_3_6_1]
  decide

/-- Claim C1 (amended): `inner_radius = centre_void + inner_layer_cells/(2π)`
and each layer `l` gets `inner_layer_cells · ⌊(l + inner_radius)/inner_radius⌋`
cells with the final entry duplicated, but for layers=3, inner_layer_cells=6,
centre_void=1 this yields `[6, 6, 12, 12]` (layer 1's ratio floor is 1, not
2), not `[6, 12, 12, 12]`. -/
theorem C1_cells_in_layer_amended :
    innerRadius 1 6 = 1 + 6 / (2 * Real.pi) ∧ cellsInLayer 3 6 1 = [6, 6, 12, 12] := by
  constructor
  · simp [innerRadius]
  · exact cellsInLayer_3_6_1

/-! ### Claim C2: there is no configuration validation -/

/-- Claim C2, counterexample: with non-positive dimensions
(`rows = cols = 0`) the rectangular maze run does not fail with any
configuration error — it crashes with an index error (`self.cells[...]`
read out of bounds) on the first growth step. The source defines no
`ConfigurationError` and performs no parameter validation at all. -/
theorem C2_no_configuration_error_counterexample :
    rectRun 0 0 "side" none 0 none (fun _ => 0) 3 = .error .oob := by decide

/-- Claim C2 (amended): the maze generation entrypoints perform no parameter
validation; with non-positive dimensions the rectangular run fails with an
out-of-bounds index error (never a `ConfigurationError`, which does not
exist in the code), for every random source and any positive amount of
fuel. -/
theorem C2_no_validation (rng : ℕ → ℕ) (fuel : ℕ) (h : 1 ≤ fuel) :
    rectRun 0 0 "side" none 0 none rng fuel = .error .oob := by
  obtain ⟨n, rfl⟩ : ∃ n, fuel = n + 1 := ⟨fuel - 1, by omega⟩
  rfl

theorem C2_no_validation_witness :
    1 ≤ 5 ∧ rectRun 0 0 "side" none 0 none (fun n => n + 7) 5 = .error .oob :=
  ⟨by decide, C2_no_validation (fun n => n + 7) 5 (by decide)⟩

/-! ### Claim C5: auto-sized centre void for rows = cols = 6 -/

/-- The prepared 8×8 grid for `rows = cols = 6`, `end_type = "centre"`,
`centre_void = None`: the auto void is the 2×2 block at rows 3–4, cols 3–4,
and the exit overwrites its bottom-middle cell `(4, 3)`. -/
def voidGrid66 : Grid :=
  [[1, 1, 1, 1, 1, 1, 1, 1],
   [1, 0, 0, 0, 0, 0, 0, 1],
   [1, 0, 0, 0, 0, 0, 0, 1],
   [1, 0, 0, 1, 1, 0, 0, 1],
   [1, 0, 0, 2, 1, 0, 0, 1],
   [1, 0, 0, 0, 0, 0, 0, 1],
   [1, 0, 0, 0, 0, 0, 0, 1],
   [1, 1, 1, 1, 1, 1, 1, 1]]

/-- Claim C5: with `centre_void = None`, `end_type = "centre"`,
rows = cols = 6, the auto-computed void is `(2 + 6 % 2, 2 + 6 % 2) = (2, 2)`
cells, pre-marked Visited centred in the grid (rows 3–4 × cols 3–4), and the
single Exit cell is `(4, 3)` — the bottom row of that void footprint (its
boundary towards the rest of the grid), not the outer boundary row 7, which
holds no exit. -/
theorem C5_rect_centre_void_and_exit :
    rectSetup 6 6 "centre" none = .ok (voidGrid66, ((0 : ℤ), (3 : ℤ)), ((4 : ℤ), (3 : ℤ)))
    ∧ (2 + 6 % 2, 2 + 6 % 2) = (2, 2)
    ∧ countVal voidGrid66 2 = 1
    ∧ valAt voidGrid66 (3, 3) = 1 ∧ valAt voidGrid66 (3, 4) = 1
    ∧ valAt voidGrid66 (4, 4) = 1 ∧ valAt voidGrid66 (4, 3) = 2
    ∧ (4 : ℤ) = Int.fdiv (6 - 2) 2 + 1 + 2 - 1
    ∧ (4 : ℤ) ≠ 6 + 1
    ∧ (voidGrid66.getD 7 []).countP (fun x => decide (x = 2)) = 0 := by decide

/-! ### Claim C6: rectangular encoder on the `["EEE", "S"]` fragment -/

/-- Claim C6: a rectangular fragment with steps `["EEE", "S"]` and
`step_size = 5` encodes to the fixed preamble (absolute mode, raise to
clearance, absolute move to `((col−1)·5 − ox, (row−1)·5 − oy)`, plunge at
the plunge rate, switch to relative mode), exactly two relative moves —
magnitude 15 east then magnitude 5 south, each at the feed rate — and the
fixed postamble (absolute mode, raise to clearance); a fragment with zero
steps encodes to the empty instruction list. -/
theorem C6_rect_encoder_scenario (start : Cell) (doc clearance plunge feed ox oy : ℚ) :
    encodePathR ⟨start, [['E', 'E', 'E'], ['S']]⟩ 5 doc clearance plunge feed (ox, oy) =
      [.g90, .g0Z clearance,
       .g0XY (5 * ((start.2 : ℚ) - 1) - ox) (5 * ((start.1 : ℚ) - 1) - oy),
       .g1ZF doc plunge, .g91,
       .g1Move [.X 15] feed, .g1Move [.Y 5] feed,
       .g90, .g0Z clearance]
    ∧ encodePathR ⟨start, []⟩ 5 doc clearance plunge feed (ox, oy) = [] := by
  constructor
  · simp [encodePathR, gcodeSteps]
    norm_num
  · rfl

/-! ### Claim C7: arc emission for angular runs of the circular encoder -/

/-- Claim C7: for any encoder state `last = (x, y, theta, layer)` and any
angular step run (head `'A'` or `'C'`), the circular encoder emits exactly
one circular-arc instruction: its endpoint is at angle
`theta ± 2π·run_length / cells_in_layer[layer]` (`+` for clockwise `'C'`,
`−` for anticlockwise `'A'`) on the unchanged layer radius
`R = (inner_r + layer)·step_size` (the endpoint satisfies `x'² + y'² = R²`),
its centre-offset parameters are `(−last_x, −last_y)` — so the arc centre,
start point plus offset, is the polar origin — it uses the clockwise arc
command (`G2`, here `clockwise = true`) exactly for clockwise runs, and the
tracked state is updated to `(x', y', theta', layer)` after the segment. -/
theorem C7_circular_arc_emission (L : List ℕ) (innerR step_size feed : ℝ)
    (last : CircLast) (st : List Char) (θ' R : ℝ)
    (h : st.headD ' ' = 'A' ∨ st.headD ' ' = 'C')
    (hθ : θ' = last.theta + (if st.headD ' ' = 'C' then (1 : ℝ) else -1) * 2 *
        Real.pi * (st.length : ℝ) / (layerCount L last.layer : ℝ))
    (hR : R = (innerR + (last.layer : ℝ)) * step_size) :
    circSegment L innerR step_size feed last st =
      ([CircGLine.gArc (decide (st.headD ' ' = 'C')) (Real.sin θ' * R) (Real.cos θ' * R)
          (-last.x) (-last.y) feed],
        ⟨Real.sin θ' * R, Real.cos θ' * R, θ', last.layer⟩)
    ∧ (Real.sin θ' * R) ^ 2 + (Real.cos θ' * R) ^ 2 = R ^ 2
    ∧ last.x + -last.x = 0 ∧ last.y + -last.y = 0 := by
  refine ⟨?_, ?_, by ring, by ring⟩
  · subst hθ hR
    rcases h with h | h <;>
      rw [List.headD_eq_head?_getD] at h <;>
      simp [circSegment, h]
  · rw [mul_pow, mul_pow, ← add_mul, Real.sin_sq_add_cos_sq, one_mul]

/-- The instantiated endpoint angle used by the C7 witness. -/
noncomputable def c7Theta : ℝ :=
  (0 : ℝ) + (if (['C', 'C'] : List Char).headD ' ' = 'C' then (1 : ℝ) else -1) * 2 *
    Real.pi * (((['C', 'C'] : List Char).length : ℕ) : ℝ) / ((layerCount [4] 0 : ℕ) : ℝ)

/-- The instantiated layer radius used by the C7 witness. -/
noncomputable def c7R : ℝ := ((1 : ℝ) + ((0 : ℤ) : ℝ)) * 2

theorem C7_circular_arc_emission_witness :
    ((['C', 'C'] : List Char).headD ' ' = 'A' ∨ (['C', 'C'] : List Char).headD ' ' = 'C')
    ∧ (circSegment [4] 1 2 3 ⟨5, 7, 0, 0⟩ ['C', 'C'] =
        ([CircGLine.gArc (decide ((['C', 'C'] : List Char).headD ' ' = 'C'))
            (Real.sin c7Theta * c7R) (Real.cos c7Theta * c7R) (-5) (-7) 3],
          ⟨Real.sin c7Theta * c7R, Real.cos c7Theta * c7R, c7Theta, 0⟩)
      ∧ (Real.sin c7Theta * c7R) ^ 2 + (Real.cos c7Theta * c7R) ^ 2 = c7R ^ 2
      ∧ (5 : ℝ) + -5 = 0 ∧ (7 : ℝ) + -7 = 0) :=
  ⟨by decide,
    C7_circular_arc_emission [4] 1 2 3 ⟨5, 7, 0, 0⟩ ['C', 'C'] c7Theta c7R
      (by decide) rfl rfl⟩

/-! ### Claim C8, counterexample -/

/-- Claim C8, counterexample: for `rows = cols = 1`, `end_type = "centre"`,
`centre_void = (1, 1)`, the setup places exactly one Exit cell, but the
forced first step of the very same run overwrites it with Visited: right
after the entry step the grid holds no Exit cell at all (a cell moved from
state Exit back to Visited, and "exactly one Exit" fails during the run). -/
theorem C8_exit_overwritten_counterexample :
    (rectSetup 1 1 "centre" (some (1, 1))).toOption.map (fun x => countVal x.1 2) = some 1
    ∧ (rectStart 1 1 "centre" (some (1, 1)) 0 none).toOption.map
        (fun x => countVal x.1.st.cells 2) = some 0 := by decide

/-! ### Claim C4, counterexample -/

/-- Claim C4, counterexample: a centre void spanning a full row
(`rows = cols = 3`, `centre_void = (1, 3)`) disconnects the interior, the
walk never reaches any neighbour of the exit, and the completed maze (the
machine reaches `done`) contains no path fragment with a stub step pointing
into the exit cell `(4, 2)` — not exactly one. -/
theorem C4_no_stub_counterexample :
    onOk (fun m => (m.mode, exitFragCount (4, 2) m, m.st.found_exit))
        (rectRun 3 3 "side" (some (1, 3)) 0 none (fun _ => 0) 60) =
      some (.done, 0, false) := by decide

/-! ### Grid write and counting lemmas -/

lemma getD_set_self {α : Type} {l : List α} {i : ℕ} (h : i < l.length) (a d : α) :
    (l.set i a).getD i d = a := by
  rw [List.getD_eq_getElem _ _ (by simpa using h)]
  exact List.getElem_set_self _

lemma getD_set_ne {α : Type} {l : List α} {i j : ℕ} (h : i ≠ j) (a d : α) :
    (l.set i a).getD j d = l.getD j d := by
  by_cases hj : j < l.length
  · rw [List.getD_eq_getElem _ _ (by simpa using hj), List.getD_eq_getElem _ _ hj]
    exact List.getElem_set_ne h _
  · rw [List.getD_eq_default _ _ (by simpa using Nat.le_of_not_lt hj),
      List.getD_eq_default _ _ (Nat.le_of_not_lt hj)]

lemma gridSet_eq_ok {g : Grid} {cell : Cell} (v : ℤ)
    (h0 : 0 ≤ cell.1) (h1 : cell.1 < (g.length : ℤ))
    (h2 : 0 ≤ cell.2) (h3 : cell.2 < ((g.getD cell.1.toNat []).length : ℤ)) :
    gridSet g cell v = .ok (setVal g cell v) := by
  simp only [gridSet, npIdx_eq_some h0 h1, npIdx_eq_some h2 h3, setVal]

lemma valAt_setVal_self {g : Grid} {cell : Cell} {v : ℤ}
    (h1 : cell.1.toNat < g.length) (h2 : cell.2.toNat < (g.getD cell.1.toNat []).length) :
    valAt (setVal g cell v) cell = v := by
  simp only [valAt, setVal, getD_set_self h1, getD_set_self h2]

lemma valAt_setVal_ne {g : Grid} {cell cell' : Cell} {v : ℤ}
    (h : cell.1.toNat ≠ cell'.1.toNat ∨ cell.2.toNat ≠ cell'.2.toNat) :
    valAt (setVal g cell v) cell' = valAt g cell' := by
  rcases h with h | h
  · simp only [valAt, setVal, getD_set_ne h]
  · by_cases hr : cell.1.toNat = cell'.1.toNat
    · by_cases hlen : cell.1.toNat < g.length
      · simp only [valAt, setVal, hr, getD_set_self (hr ▸ hlen), getD_set_ne h]
      · have hno : g.set cell.1.toNat ((g.getD cell.1.toNat []).set cell.2.toNat v) = g :=
          List.set_eq_of_length_le (Nat.le_of_not_lt hlen)
        simp only [valAt, setVal, hno]
    · simp only [valAt, setVal, getD_set_ne hr]

lemma valAt_setVal_cases (g : Grid) (cell cell' : Cell) (v : ℤ) :
    valAt (setVal g cell v) cell' = valAt g cell' ∨ valAt (setVal g cell v) cell' = v := by
  by_cases h1 : cell.1.toNat = cell'.1.toNat
  · by_cases h2 : cell.2.toNat = cell'.2.toNat
    · by_cases hl1 : cell.1.toNat < g.length
      · by_cases hl2 : cell.2.toNat < (g.getD cell.1.toNat []).length
        · right
          rw [valAt, ← h1, ← h2]
          exact valAt_setVal_self hl1 hl2
        · left
          have hno : (g.getD cell.1.toNat []).set cell.2.toNat v = g.getD cell.1.toNat [] :=
            List.set_eq_of_length_le (Nat.le_of_not_lt hl2)
          simp only [valAt, setVal, hno, ← h1]
          rw [getD_set_self hl1]
      · left
        have hno : g.set cell.1.toNat ((g.getD cell.1.toNat []).set cell.2.toNat v) = g :=
          List.set_eq_of_length_le (Nat.le_of_not_lt hl1)
        simp only [valAt, setVal, hno]
    · exact Or.inl (valAt_setVal_ne (Or.inr h2))
  · exact Or.inl (valAt_setVal_ne (Or.inl h1))

lemma gridOK_setVal {rows cols : ℕ} {g : Grid} (hg : gridOK rows cols g)
    (cell : Cell) (v : ℤ) : gridOK rows cols (setVal g cell v) := by
  by_cases hl : cell.1.toNat < g.length
  · obtain ⟨hlen, hrows⟩ := hg
    refine ⟨by simpa [setVal] using hlen, ?_⟩
    intro row hrow
    rcases List.mem_or_eq_of_mem_set hrow with hmem | rfl
    · exact hrows _ hmem
    · rw [List.length_set]
      exact hrows _ (getD_mem [] hl)
  · have hno : setVal g cell v = g := by
      rw [setVal, List.set_eq_of_length_le (Nat.le_of_not_lt hl)]
    rw [hno]
    exact hg

lemma boundaryOK_setVal {rows cols : ℕ} {g : Grid} (hb : boundaryOK rows cols g)
    (cell : Cell) {v : ℤ} (hv : v ≠ 0) : boundaryOK rows cols (setVal g cell v) := by
  intro c h0 h1 h2 h3 hB
  rcases valAt_setVal_cases g cell c v with h | h
  · rw [h]; exact hb c h0 h1 h2 h3 hB
  · rw [h]; exact hv

lemma countP_set_val {l : List ℤ} {i : ℕ} (h : i < l.length) (p : ℤ → Bool) (v : ℤ) :
    (l.set i v).countP p + (if p (l.getD i 0) then 1 else 0)
      = l.countP p + (if p v then 1 else 0) := by
  induction l generalizing i with
  | nil => simp at h
  | cons a t ih =>
    cases i with
    | zero =>
      simp only [List.set_cons_zero, List.countP_cons, List.getD_cons_zero]
      omega
    | succ n =>
      have hn : n < t.length := by simpa using h
      simp only [List.set_cons_succ, List.countP_cons, List.getD_cons_succ]
      have := ih hn
      omega

lemma map_sum_set {α : Type} (f : α → ℕ) {l : List α} {i : ℕ} (h : i < l.length)
    (a : α) (d : α) :
    ((l.set i a).map f).sum + f (l.getD i d) = (l.map f).sum + f a := by
  induction l generalizing i with
  | nil => simp at h
  | cons b t ih =>
    cases i with
    | zero =>
      simp only [List.set_cons_zero, List.map_cons, List.sum_cons, List.getD_cons_zero]
      omega
    | succ n =>
      have hn : n < t.length := by simpa using h
      simp only [List.set_cons_succ, List.map_cons, List.sum_cons, List.getD_cons_succ]
      have := ih hn
      omega

lemma unvisited_setVal_zero {g : Grid} {cell : Cell}
    (h1 : cell.1.toNat < g.length) (h2 : cell.2.toNat < (g.getD cell.1.toNat []).length)
    (hv : valAt g cell = 0) :
    unvisited (setVal g cell 1) + 1 = unvisited g := by
  have hrow := countP_set_val (l := g.getD cell.1.toNat []) h2 (fun x => decide (x = 0)) 1
  have hmap := map_sum_set (fun row => row.countP (fun x => decide (x = 0))) h1
    ((g.getD cell.1.toNat []).set cell.2.toNat 1) []
  rw [valAt] at hv
  rw [hv] at hrow
  rw [if_pos (by decide : (decide ((0 : ℤ) = 0)) = true),
    if_neg (by decide : ¬ ((decide ((1 : ℤ) = 0)) = true))] at hrow
  unfold unvisited countVal setVal
  omega

lemma countVal_setVal_other {g : Grid} {cell : Cell} {v w : ℤ}
    (h1 : cell.1.toNat < g.length) (h2 : cell.2.toNat < (g.getD cell.1.toNat []).length)
    (hold : valAt g cell ≠ w) (hnew : v ≠ w) :
    countVal (setVal g cell v) w = countVal g w := by
  have hrow := countP_set_val (l := g.getD cell.1.toNat []) h2 (fun x => decide (x = w)) v
  have hmap := map_sum_set (fun row => row.countP (fun x => decide (x = w))) h1
    ((g.getD cell.1.toNat []).set cell.2.toNat v) []
  rw [valAt] at hold
  rw [if_neg (by simpa using hold), if_neg (by simpa using hnew)] at hrow
  unfold countVal setVal
  omega

/-! ### Properties of the rectangular setup grid -/

lemma getD_map_of_lt {α β : Type} (f : α → β) (l : List α) {i : ℕ} (h : i < l.length)
    (d : β) (d' : α) : (l.map f).getD i d = f (l.getD i d') := by
  rw [List.getD_eq_getElem _ _ (by simpa using h), List.getD_eq_getElem _ _ h,
    List.getElem_map]

lemma getD_replicate_of_lt {α : Type} {n k : ℕ} (c d : α) (h : k < n) :
    (List.replicate n c).getD k d = c := by
  rw [List.getD_eq_getElem _ _ (by simpa using h)]
  exact List.getElem_replicate c _

lemma gridOK_zeros (rows cols : ℕ) : gridOK rows cols (zeros (rows + 2) (cols + 2)) := by
  constructor
  · simp [zeros]
  · intro row hrow
    rw [List.eq_of_mem_replicate hrow]
    simp

lemma gridOK_setRow {rows cols : ℕ} {g : Grid} (hg : gridOK rows cols g) (r : ℕ)
    (hr : r < g.length) : gridOK rows cols (setRow g r 1) := by
  obtain ⟨hlen, hrows⟩ := hg
  refine ⟨by simpa [setRow] using hlen, ?_⟩
  intro row hrow
  rcases List.mem_or_eq_of_mem_set hrow with hmem | rfl
  · exact hrows _ hmem
  · rw [List.length_map]
    exact hrows _ (getD_mem [] hr)

lemma gridOK_setCol {rows cols : ℕ} {g : Grid} (hg : gridOK rows cols g) (c : ℕ) :
    gridOK rows cols (setCol g c 1) := by
  obtain ⟨hlen, hrows⟩ := hg
  refine ⟨by simpa [setCol] using hlen, ?_⟩
  intro row hrow
  rw [setCol] at hrow
  obtain ⟨row', hmem, rfl⟩ := List.mem_map.mp hrow
  rw [List.length_set]
  exact hrows _ hmem

lemma gridOK_rectInit (rows cols : ℕ) : gridOK rows cols (rectInitCells rows cols) := by
  have h0 := gridOK_zeros rows cols
  have h1 := gridOK_setRow h0 0 (by rw [h0.1]; omega)
  have h2 := gridOK_setCol h1 0
  have h3 := gridOK_setRow h2 (rows + 1) (by rw [h2.1]; omega)
  exact gridOK_setCol h3 (cols + 1)

/-- The value of every cell of the freshly initialised rectangular grid:
1 on the border, 0 inside. -/
lemma rectInit_valAt (rows cols : ℕ) (a b : ℕ) (ha : a < rows + 2) (hb : b < cols + 2) :
    valAt (rectInitCells rows cols) ((a : ℤ), (b : ℤ)) =
      if a = 0 ∨ a = rows + 1 ∨ b = 0 ∨ b = cols + 1 then 1 else 0 := by
  have h0 := gridOK_zeros rows cols
  have h1 := gridOK_setRow h0 0 (by rw [h0.1]; omega)
  have h2 := gridOK_setCol h1 0
  have h3 := gridOK_setRow h2 (rows + 1) (by rw [h2.1]; omega)
  set g0 := zeros (rows + 2) (cols + 2) with hg0
  set g1 := setRow g0 0 1 with hg1
  set g2 := setCol g1 0 1 with hg2
  set g3 := setRow g2 (rows + 1) 1 with hg3
  have r0 : ∀ k, k < rows + 2 → g0.getD k [] = List.replicate (cols + 2) (0 : ℤ) := by
    intro k hk
    exact getD_replicate_of_lt _ _ hk
  have r1 : ∀ k, k < rows + 2 → g1.getD k [] =
      if k = 0 then List.replicate (cols + 2) (1 : ℤ)
      else List.replicate (cols + 2) (0 : ℤ) := by
    intro k hk
    by_cases hk0 : k = 0
    · subst hk0
      rw [if_pos rfl, hg1, setRow, getD_set_self (by rw [h0.1]; omega), r0 0 (by omega),
        List.map_replicate]
    · rw [if_neg hk0, hg1, setRow, getD_set_ne (fun h => hk0 h.symm), r0 k hk]
  have r2 : ∀ k, k < rows + 2 → g2.getD k [] = (g1.getD k []).set 0 1 := by
    intro k hk
    rw [hg2, setCol]
    exact getD_map_of_lt _ _ (by rw [h1.1]; omega) [] []
  have r3 : ∀ k, k < rows + 2 → g3.getD k [] =
      if k = rows + 1 then List.replicate (cols + 2) (1 : ℤ)
      else (g1.getD k []).set 0 1 := by
    intro k hk
    by_cases hk1 : k = rows + 1
    · subst hk1
      rw [if_pos rfl, hg3, setRow, getD_set_self (by rw [h2.1]; omega), List.map_const']
      rw [r2 _ (by omega), List.length_set]
      have : (g1.getD (rows + 1) []).length = cols + 2 := by
        rw [r1 _ (by omega)]
        by_cases h : rows + 1 = 0 <;> simp [h]
      rw [this]
    · rw [if_neg hk1, hg3, setRow, getD_set_ne (fun h => hk1 h.symm), r2 k hk]
  have r4 : (rectInitCells rows cols).getD a [] = (g3.getD a []).set (cols + 1) 1 := by
    show (setCol g3 (cols + 1) 1).getD a [] = _
    rw [setCol]
    exact getD_map_of_lt _ _ (by rw [h3.1]; omega) [] []
  have hlen1 : ∀ k, k < rows + 2 → (g1.getD k []).length = cols + 2 := by
    intro k hk
    rw [r1 k hk]
    by_cases h : k = 0 <;> simp [h]
  have hlen3 : (g3.getD a []).length = cols + 2 := by
    rw [r3 a ha]
    by_cases h : a = rows + 1
    · simp [h]
    · rw [if_neg h, List.length_set, hlen1 a ha]
  have htn : ((a : ℤ).toNat, (b : ℤ).toNat) = (a, b) := by simp
  rw [valAt]
  simp only [Int.toNat_natCast]
  rw [r4]
  by_cases hbc : b = cols + 1
  · subst hbc
    rw [getD_set_self (by rw [hlen3]; omega), if_pos (by tauto)]
  · rw [getD_set_ne (fun h => hbc h.symm), r3 a ha]
    by_cases har : a = rows + 1
    · rw [if_pos har, getD_replicate_of_lt _ _ hb, if_pos (by tauto)]
    · rw [if_neg har]
      by_cases hb0 : b = 0
      · subst hb0
        rw [getD_set_self (by rw [hlen1 a ha]; omega), if_pos (by tauto)]
      · rw [getD_set_ne (fun h => hb0 h.symm), r1 a ha]
        by_cases ha0 : a = 0
        · rw [if_pos ha0, getD_replicate_of_lt _ _ hb, if_pos (by tauto)]
        · rw [if_neg ha0, getD_replicate_of_lt _ _ hb,
            if_neg (by push_neg; exact ⟨ha0, har, hb0, hbc⟩)]

lemma boundaryOK_rectInit (rows cols : ℕ) : boundaryOK rows cols (rectInitCells rows cols) := by
  intro cell h0 h1 h2 h3 hB
  obtain ⟨x, y⟩ := cell
  simp only at h0 h1 h2 h3 hB
  obtain ⟨a, rfl⟩ : ∃ a : ℕ, x = (a : ℤ) := ⟨x.toNat, (Int.toNat_of_nonneg h0).symm⟩
  obtain ⟨b, rfl⟩ : ∃ b : ℕ, y = (b : ℤ) := ⟨y.toNat, (Int.toNat_of_nonneg h2).symm⟩
  have hval : valAt (rectInitCells rows cols) ((a : ℤ), (b : ℤ)) =
      if a = 0 ∨ a = rows + 1 ∨ b = 0 ∨ b = cols + 1 then 1 else 0 :=
    rectInit_valAt rows cols a b (by omega) (by omega)
  have hcond : a = 0 ∨ a = rows + 1 ∨ b = 0 ∨ b = cols + 1 := by omega
  rw [hval, if_pos hcond]
  omega

/-! ### Setup establishes the growth invariant -/

lemma gridOK_row_len {rows cols : ℕ} {g : Grid} (hg : gridOK rows cols g) {k : ℕ}
    (hk : k < rows + 2) : (g.getD k []).length = cols + 2 :=
  hg.2 _ (getD_mem [] (by rw [hg.1]; exact hk))

lemma gridSet_ok_exists {g : Grid} {cell : Cell} {v : ℤ} {g' : Grid}
    (h : gridSet g cell v = .ok g') :
    ∃ i j : ℕ, g' = setVal g ((i : ℤ), (j : ℤ)) v := by
  unfold gridSet at h
  cases h1 : npIdx g.length cell.1 with
  | none => rw [h1] at h; cases h
  | some i =>
    simp only [h1] at h
    cases h2 : npIdx (g.getD i []).length cell.2 with
    | none => rw [h2] at h; cases h
    | some j =>
      simp only [h2] at h
      refine ⟨i, j, ?_⟩
      have h3 := Except.ok.inj h
      rw [← h3, setVal]
      simp

lemma markVoidRow_props {rows cols : ℕ} {g : Grid} {r lc : ℤ} :
    ∀ {n : ℕ} {g' : Grid}, markVoidRow g r lc n = .ok g' →
      gridOK rows cols g → boundaryOK rows cols g →
      gridOK rows cols g' ∧ boundaryOK rows cols g'
        ∧ ∀ c, valAt g' c = valAt g c ∨ valAt g' c = 1 := by
  intro n
  induction n with
  | zero =>
    intro g' h hg hb
    have h2 : g = g' := Except.ok.inj h
    subst h2
    exact ⟨hg, hb, fun c => Or.inl rfl⟩
  | succ k ih =>
    intro g' h hg hb
    cases hk : markVoidRow g r lc k with
    | error e => rw [markVoidRow, hk] at h; cases h
    | ok g1 =>
      rw [markVoidRow, hk, ok_bind] at h
      obtain ⟨hg1, hb1, hv1⟩ := ih hk hg hb
      obtain ⟨i, j, rfl⟩ := gridSet_ok_exists h
      refine ⟨gridOK_setVal hg1 _ _, boundaryOK_setVal hb1 _ one_ne_zero, fun c => ?_⟩
      rcases valAt_setVal_cases g1 _ c 1 with hc | hc
      · rw [hc]; exact hv1 c
      · exact Or.inr hc

lemma markVoid_props {rows cols : ℕ} {g : Grid} {tr lc : ℤ} {vc : ℕ} :
    ∀ {n : ℕ} {g' : Grid}, markVoid g tr lc n vc = .ok g' →
      gridOK rows cols g → boundaryOK rows cols g →
      gridOK rows cols g' ∧ boundaryOK rows cols g'
        ∧ ∀ c, valAt g' c = valAt g c ∨ valAt g' c = 1 := by
  intro n
  induction n with
  | zero =>
    intro g' h hg hb
    have h2 : g = g' := Except.ok.inj h
    subst h2
    exact ⟨hg, hb, fun c => Or.inl rfl⟩
  | succ k ih =>
    intro g' h hg hb
    cases hk : markVoid g tr lc k vc with
    | error e => rw [markVoid, hk] at h; cases h
    | ok g1 =>
      rw [markVoid, hk, ok_bind] at h
      obtain ⟨hg1, hb1, hv1⟩ := ih hk hg hb
      obtain ⟨hg2, hb2, hv2⟩ := markVoidRow_props h hg1 hb1
      refine ⟨hg2, hb2, fun c => ?_⟩
      rcases hv2 c with hc | hc
      · rw [hc]; exact hv1 c
      · exact Or.inr hc

lemma rectCells1_props {rows cols : ℕ} {et : String} {cv : Option (ℕ × ℕ)} {g1 : Grid}
    (h : rectCells1 rows cols et cv = .ok g1) :
    gridOK rows cols g1 ∧ boundaryOK rows cols g1 := by
  unfold rectCells1 at h
  cases hvi : rectVoidInfo rows cols et cv with
  | none =>
    rw [hvi] at h
    have h2 : rectInitCells rows cols = g1 := Except.ok.inj h
    subst h2
    exact ⟨gridOK_rectInit rows cols, boundaryOK_rectInit rows cols⟩
  | some info =>
    obtain ⟨tr, lc, vr, vc⟩ := info
    rw [hvi] at h
    obtain ⟨hg, hb, _⟩ := markVoid_props h (gridOK_rectInit rows cols)
      (boundaryOK_rectInit rows cols)
    exact ⟨hg, hb⟩

lemma rectSetup_ok_elim {rows cols : ℕ} {et : String} {cv : Option (ℕ × ℕ)}
    {g : Grid} {ent ex : Cell}
    (h : rectSetup rows cols et cv = .ok (g, ent, ex)) :
    ent = ((0 : ℤ), (((cols + 1) / 2 : ℕ) : ℤ))
    ∧ gridOK rows cols g ∧ boundaryOK rows cols g := by
  unfold rectSetup at h
  cases h1 : rectCells1 rows cols et cv with
  | error e => rw [h1] at h; cases h
  | ok c1 =>
    rw [h1, ok_bind] at h
    cases h2 : rectExitCell rows cols et cv with
    | error e => rw [h2] at h; cases h
    | ok e =>
      rw [h2, ok_bind] at h
      cases h3 : gridSet c1 e 2 with
      | error e2 => rw [h3] at h; cases h
      | ok c2 =>
        rw [h3, ok_bind] at h
        obtain ⟨hg1, hb1⟩ := rectCells1_props h1
        obtain ⟨i, j, rfl⟩ := gridSet_ok_exists h3
        have h4 := Except.ok.inj h
        injection h4 with hga h5
        injection h5 with henta hexa
        subst hga
        subst henta
        exact ⟨rfl, gridOK_setVal hg1 _ _, boundaryOK_setVal hb1 _ two_ne_zero⟩

lemma rectStart_ok_elim {rows cols : ℕ} {et : String} {cv : Option (ℕ × ℕ)}
    {sob : ℕ} {db : Option (List (Char × ℕ))} {m0 : Machine} {E : Cell}
    (h : rectStart rows cols et cv sob db = .ok (m0, E)) :
    ∃ g, rectSetup rows cols et cv = .ok (g, ((0 : ℤ), (((cols + 1) / 2 : ℕ) : ℤ)), E)
      ∧ m0 = ⟨.growing, ⟨setVal g ((1 : ℤ), (((cols + 1) / 2 : ℕ) : ℤ)) 1,
          [((1 : ℤ), (((cols + 1) / 2 : ℕ) : ℤ)), ((0 : ℤ), (((cols + 1) / 2 : ℕ) : ℤ))],
          [⟨((0 : ℤ), (((cols + 1) / 2 : ℕ) : ℤ)), [['S']]⟩], false, none, 0⟩⟩ := by
  unfold rectStart at h
  cases h1 : rectSetup rows cols et cv with
  | error e => rw [h1] at h; cases h
  | ok res =>
    obtain ⟨g, ent, ex⟩ := res
    rw [h1, ok_bind] at h
    obtain ⟨hent, hgOK, hbOK⟩ := rectSetup_ok_elim h1
    subst hent
    set mid : ℤ := (((cols + 1) / 2 : ℕ) : ℤ) with hmid
    -- evaluate the forced first step south
    have hto : cadd ((0 : ℤ), mid) ((1 : ℤ), (0 : ℤ)) = ((1 : ℤ), mid) := by
      simp [cadd]
    have hmidlt : mid < (cols : ℤ) + 2 := by
      rw [hmid]
      have : (cols + 1) / 2 < cols + 2 := by omega
      exact_mod_cast this
    have hmid0 : 0 ≤ mid := by rw [hmid]; positivity
    have hset : gridSet g ((1 : ℤ), mid) 1 = .ok (setVal g ((1 : ℤ), mid) 1) := by
      apply gridSet_eq_ok
      · norm_num
      · rw [hgOK.1]; push_cast; omega
      · exact hmid0
      · rw [gridOK_row_len hgOK (by omega : (1 : ℤ).toNat < rows + 2)]
        push_cast
        omega
    have hcs : cellStep (rectCfg sob db)
          ⟨g, [((0 : ℤ), mid)], [⟨((0 : ℤ), mid), []⟩], false, none, 0⟩ 'S'
        = Except.bind (gridSet g (cadd ((0 : ℤ), mid) ((1 : ℤ), (0 : ℤ))) 1)
            (fun cells' => .ok ⟨cells', cadd ((0 : ℤ), mid) ((1 : ℤ), (0 : ℤ)) :: [((0 : ℤ), mid)],
              [⟨((0 : ℤ), mid), [['S']]⟩], false, none, 0⟩) := rfl
    rw [hto, hset] at hcs
    simp only [Except.bind] at hcs
    have h' : (do
        let s1 ← cellStep (rectCfg sob db)
          ⟨g, [((0 : ℤ), mid)], [⟨((0 : ℤ), mid), []⟩], false, none, 0⟩ 'S'
        Except.ok (α := Machine × Cell)
          (⟨Mode.growing, ⟨s1.cells, s1.stack, s1.paths, false, none, s1.rnd⟩⟩, ex))
        = Except.ok (m0, E) := h
    rw [hcs] at h'
    simp only [ok_bind] at h'
    have h2 := Except.ok.inj h'
    injection h2 with hm hE
    subst hE
    refine ⟨g, rfl, ?_⟩
    rw [← hm]

/-! ### Totality and analysis of the scan loops -/

lemma rect_gridGet {rows cols : ℕ} {g : Grid} (hg : gridOK rows cols g) {cell : Cell}
    (h0 : 0 ≤ cell.1) (h1 : cell.1 ≤ (rows : ℤ) + 1)
    (h2 : 0 ≤ cell.2) (h3 : cell.2 ≤ (cols : ℤ) + 1) :
    gridGet g cell = .ok (valAt g cell) := by
  apply gridGet_eq_ok h0 _ h2
  · rw [gridOK_row_len hg (k := cell.1.toNat) (by omega)]
    push_cast
    omega
  · rw [hg.1]
    push_cast
    omega

lemma rect_target_bounds {rows cols : ℕ} {cur off : Cell} (hin : interior rows cols cur)
    (hoff : off ∈ rectCheckPoints) :
    0 ≤ (cadd cur off).1 ∧ (cadd cur off).1 ≤ (rows : ℤ) + 1
    ∧ 0 ≤ (cadd cur off).2 ∧ (cadd cur off).2 ≤ (cols : ℤ) + 1 := by
  obtain ⟨ha, hb, hc, hd⟩ := hin
  simp only [rectCheckPoints, List.mem_cons, List.not_mem_nil, or_false] at hoff
  rcases hoff with rfl | rfl | rfl | rfl <;> simp only [cadd] <;> refine ⟨?_, ?_, ?_, ?_⟩ <;> omega

lemma scanFor_ok_of_reads {cells : Grid} {cur : Cell} (v : ℤ) :
    ∀ {offsets : List Cell},
      (∀ off ∈ offsets, ∃ x, gridGet cells (cadd cur off) = .ok x) →
      ∃ res, scanFor cells cur v offsets = .ok res := by
  intro offsets
  induction offsets with
  | nil => exact fun _ => ⟨none, rfl⟩
  | cons off rest ih =>
    intro hreads
    obtain ⟨x, hx⟩ := hreads off (List.mem_cons_self _ _)
    obtain ⟨res, hres⟩ := ih (fun o ho => hreads o (List.mem_cons_of_mem _ ho))
    by_cases hxv : x = v
    · exact ⟨some 0, by rw [scanFor, hx, ok_bind, if_pos hxv]⟩
    · exact ⟨res.map (· + 1), by rw [scanFor, hx, ok_bind, if_neg hxv, hres, ok_bind]⟩

lemma scanFor_some_val {cells : Grid} {cur : Cell} {v : ℤ} :
    ∀ {offsets : List Cell} {i : ℕ}, scanFor cells cur v offsets = .ok (some i) →
      ∃ h : i < offsets.length, gridGet cells (cadd cur (offsets.get ⟨i, h⟩)) = .ok v := by
  intro offsets
  induction offsets with
  | nil =>
    intro i h
    have h2 : (Except.ok (α := Option ℕ) (ε := Err) none) = .ok (some i) := h
    injection h2 with h3
    cases h3
  | cons off rest ih =>
    intro i h
    cases hx : gridGet cells (cadd cur off) with
    | error e => rw [scanFor, hx] at h; cases h
    | ok x =>
      rw [scanFor, hx, ok_bind] at h
      by_cases hxv : x = v
      · rw [if_pos hxv] at h
        have h2 : (some 0 : Option ℕ) = some i := Except.ok.inj h
        have h3 : i = 0 := by injection h2 with h4; omega
        subst h3
        rw [hxv] at hx
        exact ⟨Nat.succ_pos _, hx⟩
      · rw [if_neg hxv] at h
        cases hres : scanFor cells cur v rest with
        | error e => rw [hres] at h; cases h
        | ok r =>
          rw [hres, ok_bind] at h
          have h2 := Except.ok.inj h
          cases r with
          | none => simp at h2
          | some i' =>
            have h3 : i' + 1 = i := by simpa using h2
            subst h3
            obtain ⟨hlt, hval⟩ := ih hres
            exact ⟨Nat.succ_lt_succ hlt, hval⟩

lemma optionsFor_ok_of_reads {bias : Option (List (Char × ℕ))} {cells : Grid} {cur : Cell} :
    ∀ {pairs : List (Char × Cell)},
      (∀ p ∈ pairs, ∃ x, gridGet cells (cadd cur p.2) = .ok x) →
      ∃ opts, optionsFor bias cells cur pairs = .ok opts := by
  intro pairs
  induction pairs with
  | nil => exact fun _ => ⟨[], rfl⟩
  | cons p rest ih =>
    intro hreads
    obtain ⟨d', off'⟩ := p
    obtain ⟨x, hx⟩ := hreads _ (List.mem_cons_self _ _)
    obtain ⟨opts', hrest⟩ := ih (fun o ho => hreads o (List.mem_cons_of_mem _ ho))
    by_cases hx0 : x = 0
    · cases bias with
      | none =>
        exact ⟨d' :: opts', by rw [optionsFor, hx, ok_bind, hrest, ok_bind, if_pos hx0]⟩
      | some b =>
        exact ⟨List.replicate ((b.lookup d').getD 0 + 1) d' ++ opts',
          by rw [optionsFor, hx, ok_bind, hrest, ok_bind, if_pos hx0]⟩
    · exact ⟨opts', by rw [optionsFor, hx, ok_bind, hrest, ok_bind, if_neg hx0]⟩

lemma optionsFor_ne_nil {bias : Option (List (Char × ℕ))} {cells : Grid} {cur : Cell} :
    ∀ {pairs : List (Char × Cell)} {opts : List Char},
      optionsFor bias cells cur pairs = .ok opts →
      ∀ {d : Char} {off : Cell}, (d, off) ∈ pairs →
        gridGet cells (cadd cur off) = .ok 0 → opts ≠ [] := by
  intro pairs
  induction pairs with
  | nil =>
    intro opts _ d off hmem
    simp at hmem
  | cons p rest ih =>
    intro opts h d off hmem hval
    obtain ⟨d', off'⟩ := p
    cases hx : gridGet cells (cadd cur off') with
    | error e => rw [optionsFor, hx] at h; cases h
    | ok x =>
      rw [optionsFor, hx, ok_bind] at h
      cases hrest : optionsFor bias cells cur rest with
      | error e => rw [hrest] at h; cases h
      | ok opts' =>
        rw [hrest, ok_bind] at h
        by_cases hx0 : x = 0
        · rw [if_pos hx0] at h
          cases bias with
          | none =>
            have h2 := Except.ok.inj h
            rw [← h2]
            exact List.cons_ne_nil _ _
          | some b =>
            have h2 := Except.ok.inj h
            rw [← h2]
            simp
        · rw [if_neg hx0] at h
          rcases List.mem_cons.mp hmem with heq | hmem'
          · exfalso
            apply hx0
            injection heq with h5 h6
            rw [← h6, hval] at hx
            exact (Except.ok.inj hx).symm
          · cases bias with
            | none =>
              have h2 := Except.ok.inj h
              rw [← h2]
              exact ih hrest hmem' hval
            | some b =>
              have h2 := Except.ok.inj h
              rw [← h2]
              exact ih hrest hmem' hval

lemma rect_dirToDelta {sob : ℕ} {db : Option (List (Char × ℕ))} {s : MazeState}
    {mv : Char} {off : Cell}
    (h : (mv, off) ∈ rectDirections.zip rectCheckPoints) :
    dirToDelta (rectCfg sob db) s mv = .ok off := by
  have hz : rectDirections.zip rectCheckPoints =
      [('N', ((-1 : ℤ), (0 : ℤ))), ('S', (1, 0)), ('W', (0, -1)), ('E', (0, 1))] := rfl
  rw [hz] at h
  simp only [List.mem_cons, List.not_mem_nil, or_false, Prod.mk.injEq] at h
  rcases h with ⟨rfl, rfl⟩ | ⟨rfl, rfl⟩ | ⟨rfl, rfl⟩ | ⟨rfl, rfl⟩ <;> rfl

lemma rect_gridSet {rows cols : ℕ} {g : Grid} (hg : gridOK rows cols g) {cell : Cell}
    (v : ℤ) (h0 : 0 ≤ cell.1) (h1 : cell.1 ≤ (rows : ℤ) + 1)
    (h2 : 0 ≤ cell.2) (h3 : cell.2 ≤ (cols : ℤ) + 1) :
    gridSet g cell v = .ok (setVal g cell v) := by
  apply gridSet_eq_ok v h0 _ h2
  · rw [gridOK_row_len hg (k := cell.1.toNat) (by omega)]
    push_cast
    omega
  · rw [hg.1]
    push_cast
    omega

lemma length_modifyLast {α : Type} (f : α → α) : ∀ l : List α, (modifyLast f l).length = l.length
  | [] => rfl
  | [a] => rfl
  | a :: a' :: rest => by
    rw [modifyLast, List.length_cons, List.length_cons, length_modifyLast f (a' :: rest),
      List.length_cons]

lemma modifyLast_ne_nil {α : Type} (f : α → α) {l : List α} (h : l ≠ []) :
    modifyLast f l ≠ [] := by
  intro hc
  apply h
  have := length_modifyLast f l
  rw [hc] at this
  exact List.length_eq_zero.mp this.symm

lemma rect_zip_snd_mem {p : Char × Cell} (h : p ∈ rectDirections.zip rectCheckPoints) :
    p.2 ∈ rectCheckPoints := by
  have hz : rectDirections.zip rectCheckPoints =
      [('N', ((-1 : ℤ), (0 : ℤ))), ('S', (1, 0)), ('W', (0, -1)), ('E', (0, 1))] := rfl
  rw [hz] at h
  simp only [List.mem_cons, List.not_mem_nil, or_false] at h
  rcases h with rfl | rfl | rfl | rfl <;> simp [rectCheckPoints]

lemma rect_off_has_dir {off : Cell} (h : off ∈ rectCheckPoints) :
    ∃ d, (d, off) ∈ rectDirections.zip rectCheckPoints := by
  simp only [rectCheckPoints, List.mem_cons, List.not_mem_nil, or_false] at h
  have hz : rectDirections.zip rectCheckPoints =
      [('N', ((-1 : ℤ), (0 : ℤ))), ('S', (1, 0)), ('W', (0, -1)), ('E', (0, 1))] := rfl
  rcases h with rfl | rfl | rfl | rfl
  · exact ⟨'N', by rw [hz]; simp⟩
  · exact ⟨'S', by rw [hz]; simp⟩
  · exact ⟨'W', by rw [hz]; simp⟩
  · exact ⟨'E', by rw [hz]; simp⟩

lemma rect_delta_of_zip_mem {mv : Char} {off : Cell}
    (h : (mv, off) ∈ rectDirections.zip rectCheckPoints) : rectDelta mv = off := by
  have hz : rectDirections.zip rectCheckPoints =
      [('N', ((-1 : ℤ), (0 : ℤ))), ('S', (1, 0)), ('W', (0, -1)), ('E', (0, 1))] := rfl
  rw [hz] at h
  simp only [List.mem_cons, List.not_mem_nil, or_false, Prod.mk.injEq] at h
  rcases h with ⟨rfl, rfl⟩ | ⟨rfl, rfl⟩ | ⟨rfl, rfl⟩ | ⟨rfl, rfl⟩ <;> rfl

lemma rect_delta_getD (i : ℕ) (h : i < rectCheckPoints.length) :
    rectDelta (rectDirections.getD i ' ') = rectCheckPoints.get ⟨i, h⟩ := by
  have h4 : i < 4 := h
  interval_cases i <;> rfl

lemma grow_eq_growTail {cfg : GrowCfg} {rng : ℕ → ℕ} {cells : Grid} {t : Cell}
    {rest : List Cell} {paths : List PathPart} {fe : Bool} {lm : Option Char} {rnd : ℕ}
    {offs : List Cell}
    (hoffs : cfg.checkPoints ⟨cells, t :: rest, paths, fe, lm, rnd⟩ = .ok offs)
    (hnone : (if fe then (pure none : Except Err (Option ℕ))
        else scanFor cells t 2 offs) = .ok none) :
    grow cfg rng ⟨cells, t :: rest, paths, fe, lm, rnd⟩
      = growTail cfg rng ⟨cells, t :: rest, paths, fe, lm, rnd⟩ t offs := by
  cases fe with
  | false =>
    show cfg.checkPoints ⟨cells, t :: rest, paths, false, lm, rnd⟩ >>= _ = _
    rw [hoffs, ok_bind]
    show scanFor cells t 2 offs >>= _ = _
    rw [show scanFor cells t 2 offs = (.ok none : Except Err (Option ℕ)) from hnone, ok_bind]
    rfl
  | true =>
    show cfg.checkPoints ⟨cells, t :: rest, paths, true, lm, rnd⟩ >>= _ = _
    rw [hoffs, ok_bind]
    rfl

lemma choice_mem {opts : List Char} (lm : Option Char) (sob k : ℕ) (hne : opts ≠ []) :
    (if 0 < sob ∧ (match lm with | some l => opts.contains l | none => false) = true
      then opts ++ List.replicate sob (lm.getD ' ') else opts).getD
      (k % (if 0 < sob ∧ (match lm with | some l => opts.contains l | none => false) = true
        then opts ++ List.replicate sob (lm.getD ' ') else opts).length) ' ' ∈ opts := by
  by_cases hc : 0 < sob ∧ (match lm with | some l => opts.contains l | none => false) = true
  · simp only [if_pos hc]
    have hlen : 0 < (opts ++ List.replicate sob (lm.getD ' ')).length := by
      rw [List.length_append]
      have := List.length_pos.mpr hne
      omega
    have hmem := getD_mem (L := opts ++ List.replicate sob (lm.getD ' ')) ' '
      (Nat.mod_lt k hlen)
    rcases List.mem_append.mp hmem with h | h
    · exact h
    · have he := List.eq_of_mem_replicate h
      rw [he]
      obtain ⟨hsob, hin⟩ := hc
      cases lm with
      | none => cases hin
      | some l => simpa using hin
  · simp only [if_neg hc]
    exact getD_mem ' ' (Nat.mod_lt k (List.length_pos.mpr hne))

/-- A growing step whose exit scan comes back empty (or is skipped because the
exit is already found) either advances into an unvisited neighbour or switches
to backtracking; it preserves the invariant, strictly decreases the measure,
and decreases it by at least 3 whenever the stack top has an unvisited
neighbour. -/
lemma rect_grow_advance {rows cols sob : ℕ} {db : Option (List (Char × ℕ))}
    {rng : ℕ → ℕ} {cells : Grid} {t : Cell} {ts : List Cell} {e : Cell}
    {paths : List PathPart} {fe : Bool} {lm : Option Char} {rnd : ℕ}
    (hg : gridOK rows cols cells) (hb : boundaryOK rows cols cells)
    (htops : ∀ c ∈ t :: ts, interior rows cols c) (hp : paths ≠ [])
    (hnone : (if fe then (pure none : Except Err (Option ℕ))
        else scanFor cells t 2 rectCheckPoints) = .ok none) :
    ∃ m', machineStep (rectCfg sob db) rng
        ⟨.growing, ⟨cells, t :: (ts ++ [e]), paths, fe, lm, rnd⟩⟩ = .ok m'
      ∧ InvT rows cols m'
      ∧ measureM m' < measureM ⟨.growing, ⟨cells, t :: (ts ++ [e]), paths, fe, lm, rnd⟩⟩
      ∧ ((∃ off ∈ rectCheckPoints, gridGet cells (cadd t off) = .ok 0) →
          measureM m' + 3 ≤ measureM ⟨.growing, ⟨cells, t :: (ts ++ [e]), paths, fe, lm, rnd⟩⟩)
      ∧ StepShape ⟨.growing, ⟨cells, t :: (ts ++ [e]), paths, fe, lm, rnd⟩⟩ m' := by
  have hcur : interior rows cols t := htops t (List.mem_cons_self t ts)
  have hreads' : ∀ p ∈ rectDirections.zip rectCheckPoints,
      ∃ x, gridGet cells (cadd t p.2) = .ok x := by
    intro p hp'
    obtain ⟨b0, b1, b2, b3⟩ := rect_target_bounds hcur (rect_zip_snd_mem hp')
    exact ⟨_, rect_gridGet hg b0 b1 b2 b3⟩
  obtain ⟨opts, hopts⟩ := @optionsFor_ok_of_reads db cells t (rectDirections.zip rectCheckPoints) hreads'
  by_cases h0 : opts.length = 0
  · -- dead end: switch to backtracking
    have hgrowEq : grow (rectCfg sob db) rng ⟨cells, t :: (ts ++ [e]), paths, fe, lm, rnd⟩
        = .ok (⟨cells, t :: (ts ++ [e]), paths, fe, lm, rnd⟩, false) := by
      rw [grow_eq_growTail rfl hnone]
      show optionsFor db cells t (rectDirections.zip rectCheckPoints) >>= _ = _
      rw [hopts, ok_bind]
      show (if opts.length = 0 then _ else _) = _
      rw [if_pos h0]
    refine ⟨⟨.backtracking, ⟨cells, t :: (ts ++ [e]), paths, fe, lm, rnd⟩⟩, ?_, ?_, ?_, ?_, ?_⟩
    · show grow (rectCfg sob db) rng
          ⟨cells, t :: (ts ++ [e]), paths, fe, lm, rnd⟩ >>= _ = _
      rw [hgrowEq, ok_bind]
      rfl
    · exact ⟨hg, hb, ⟨by simp only [List.length_cons, List.length_append, List.length_singleton]; omega, t :: ts, e, rfl, htops⟩,
        hp, fun h => Mode.noConfusion h⟩
    · cases fe <;> simp [measureM]
    · intro hz
      exfalso
      obtain ⟨off, hoff, hv⟩ := hz
      obtain ⟨d0, hpair0⟩ := rect_off_has_dir hoff
      exact optionsFor_ne_nil hopts hpair0 hv (List.length_eq_zero.mp h0)
    · exact Or.inr (Or.inl ⟨rfl, rfl, rfl⟩)
  · -- advance into an unvisited neighbour
    have hne : opts ≠ [] := fun hc => h0 (by simp [hc])
    set opts2 := if 0 < sob ∧ (match lm with | some l => opts.contains l | none => false) = true
        then opts ++ List.replicate sob (lm.getD ' ') else opts with hopts2
    set mv := opts2.getD (rng rnd % opts2.length) ' ' with hmv
    have hmv_mem : mv ∈ opts := by
      rw [hmv, hopts2]
      exact choice_mem lm sob (rng rnd) hne
    obtain ⟨off, hpair, hval0⟩ := optionsFor_mem hopts hmv_mem
    have hoffm : off ∈ rectCheckPoints := rect_zip_snd_mem hpair
    obtain ⟨b0, b1, b2, b3⟩ := rect_target_bounds hcur hoffm
    have hgg := rect_gridGet hg b0 b1 b2 b3
    have hvz : valAt cells (cadd t off) = 0 := Except.ok.inj (hgg.symm.trans hval0)
    have hcellEq : cellStep (rectCfg sob db)
        ⟨cells, t :: (ts ++ [e]), paths, fe, lm, rnd + 1⟩ mv
        = .ok ⟨setVal cells (cadd t off) 1, cadd t off :: t :: (ts ++ [e]),
            modifyLast (fun p => p.add_step mv) paths, fe, lm, rnd + 1⟩ := by
      show dirToDelta (rectCfg sob db)
          ⟨cells, t :: (ts ++ [e]), paths, fe, lm, rnd + 1⟩ mv >>= _ = _
      rw [rect_dirToDelta hpair, ok_bind]
      show gridSet cells (cadd t off) 1 >>= _ = _
      rw [rect_gridSet hg 1 b0 b1 b2 b3, ok_bind]
    have hgrowEq : grow (rectCfg sob db) rng ⟨cells, t :: (ts ++ [e]), paths, fe, lm, rnd⟩
        = .ok (⟨setVal cells (cadd t off) 1, cadd t off :: t :: (ts ++ [e]),
            modifyLast (fun p => p.add_step mv) paths, fe, some mv, rnd + 1⟩, true) := by
      rw [grow_eq_growTail rfl hnone]
      show optionsFor db cells t (rectDirections.zip rectCheckPoints) >>= _ = _
      rw [hopts, ok_bind]
      show (if opts.length = 0 then _ else _) = _
      rw [if_neg h0]
      show cellStep (rectCfg sob db)
          ⟨cells, t :: (ts ++ [e]), paths, fe, lm, rnd + 1⟩ mv >>= _ = _
      rw [hcellEq, ok_bind]
      rfl
    have hlt1R : (cadd t off).1.toNat < rows + 2 := by omega
    have hlt1 : (cadd t off).1.toNat < cells.length := by
      rw [hg.1]
      exact hlt1R
    have hlt2 : (cadd t off).2.toNat < (cells.getD (cadd t off).1.toNat []).length := by
      rw [gridOK_row_len hg hlt1R]
      omega
    have hu : unvisited (setVal cells (cadd t off) 1) + 1 = unvisited cells :=
      unvisited_setVal_zero hlt1 hlt2 hvz
    have hm3 : measureM ⟨.growing, ⟨setVal cells (cadd t off) 1,
          cadd t off :: t :: (ts ++ [e]),
          modifyLast (fun p => p.add_step mv) paths, fe, some mv, rnd + 1⟩⟩ + 3
        ≤ measureM ⟨.growing, ⟨cells, t :: (ts ++ [e]), paths, fe, lm, rnd⟩⟩ := by
      cases fe <;> simp [measureM] <;> omega
    refine ⟨⟨.growing, ⟨setVal cells (cadd t off) 1, cadd t off :: t :: (ts ++ [e]),
        modifyLast (fun p => p.add_step mv) paths, fe, some mv, rnd + 1⟩⟩, ?_, ?_,
        by omega, fun _ => hm3,
        Or.inl ⟨t, ts ++ [e], off, mv, rfl, rfl, rfl, hoffm, hvz, hlt1, hlt2,
          rfl, rfl, rfl, rect_delta_of_zip_mem hpair, rfl⟩⟩
    · show grow (rectCfg sob db) rng
          ⟨cells, t :: (ts ++ [e]), paths, fe, lm, rnd⟩ >>= _ = _
      rw [hgrowEq, ok_bind]
      rfl
    · refine ⟨gridOK_setVal hg _ _, boundaryOK_setVal hb _ one_ne_zero,
        ⟨by simp only [List.length_cons, List.length_append, List.length_singleton]; omega, cadd t off :: t :: ts, e, rfl, ?_⟩,
        modifyLast_ne_nil _ hp, fun h => Mode.noConfusion h⟩
      intro c hc
      rcases List.mem_cons.mp hc with rfl | hc'
      · have hnb : ¬((cadd t off).1 = 0 ∨ (cadd t off).1 = (rows : ℤ) + 1
            ∨ (cadd t off).2 = 0 ∨ (cadd t off).2 = (cols : ℤ) + 1) :=
          fun hB => hb _ b0 b1 b2 b3 hB hvz
        push_neg at hnb
        obtain ⟨n1, n2, n3, n4⟩ := hnb
        exact ⟨by omega, by omega, by omega, by omega⟩
      · exact htops c hc'

/-- A growing step of the rectangular machine under the invariant: it
succeeds, preserves the invariant, strictly decreases the measure, and
decreases it by at least 3 when the stack top has an unvisited neighbour. -/
lemma rect_grow_step {rows cols sob : ℕ} {db : Option (List (Char × ℕ))}
    {rng : ℕ → ℕ} {m : Machine}
    (hInv : InvT rows cols m) (hmode : m.mode = .growing) :
    ∃ m', machineStep (rectCfg sob db) rng m = .ok m' ∧ InvT rows cols m'
      ∧ measureM m' < measureM m
      ∧ ((∃ off ∈ rectCheckPoints,
            gridGet m.st.cells (cadd (m.st.stack.headD (0, 0)) off) = .ok 0) →
          measureM m' + 3 ≤ measureM m)
      ∧ StepShape m m' := by
  obtain ⟨mode, st⟩ := m
  obtain ⟨cells, stack, paths, fe, lm, rnd⟩ := st
  have hmode' : mode = .growing := hmode
  subst hmode'
  obtain ⟨hgP, hbP, hsP, hpP, -⟩ := hInv
  have hg : gridOK rows cols cells := hgP
  have hb : boundaryOK rows cols cells := hbP
  have hp : paths ≠ [] := hpP
  obtain ⟨hlen2P, tops, e, hstackP, htops⟩ := hsP
  have hlen2 : 2 ≤ stack.length := hlen2P
  cases tops with
  | nil =>
    have hstack : stack = [] ++ [e] := hstackP
    rw [hstack] at hlen2
    simp at hlen2
  | cons t ts =>
    have hstack : stack = t :: (ts ++ [e]) := hstackP
    subst hstack
    have hcur : interior rows cols t := htops t (List.mem_cons_self t ts)
    have hreads : ∀ off ∈ rectCheckPoints, ∃ x, gridGet cells (cadd t off) = .ok x := by
      intro off hoff
      obtain ⟨b0, b1, b2, b3⟩ := rect_target_bounds hcur hoff
      exact ⟨_, rect_gridGet hg b0 b1 b2 b3⟩
    by_cases hfe : fe = true
    · subst hfe
      exact rect_grow_advance hg hb htops hp rfl
    · rw [Bool.not_eq_true] at hfe
      subst hfe
      obtain ⟨res, hscan⟩ := scanFor_ok_of_reads 2 hreads
      cases res with
      | none =>
        have hnone : (if (false : Bool) then (pure none : Except Err (Option ℕ))
            else scanFor cells t 2 rectCheckPoints) = .ok none := hscan
        exact rect_grow_advance hg hb htops hp hnone
      | some i =>
        have hgrowEq : grow (rectCfg sob db) rng
            ⟨cells, t :: (ts ++ [e]), paths, false, lm, rnd⟩
            = .ok (⟨cells, t :: (ts ++ [e]),
                modifyLast (fun p => p.add_step (rectDirections.getD i ' ')) paths,
                true, lm, rnd⟩, false) := by
          show (rectCfg sob db).checkPoints
              ⟨cells, t :: (ts ++ [e]), paths, false, lm, rnd⟩ >>= _ = _
          rw [show (rectCfg sob db).checkPoints
              ⟨cells, t :: (ts ++ [e]), paths, false, lm, rnd⟩
              = (.ok rectCheckPoints : Except Err (List Cell)) from rfl, ok_bind]
          show scanFor cells t 2 rectCheckPoints >>= _ = _
          rw [hscan, ok_bind]
          rfl
        have hm3 : measureM ⟨.backtracking, ⟨cells, t :: (ts ++ [e]),
              modifyLast (fun p => p.add_step (rectDirections.getD i ' ')) paths,
              true, lm, rnd⟩⟩ + 3
            ≤ measureM ⟨.growing, ⟨cells, t :: (ts ++ [e]), paths, false, lm, rnd⟩⟩ := by
          simp [measureM]
          omega
        obtain ⟨hilt, hgg2⟩ := scanFor_some_val hscan
        obtain ⟨b0, b1, b2, b3⟩ := rect_target_bounds hcur (List.get_mem _ _ _)
        have hv2 : valAt cells (cadd t (rectCheckPoints.get ⟨i, hilt⟩)) = 2 :=
          Except.ok.inj ((rect_gridGet hg b0 b1 b2 b3).symm.trans hgg2)
        refine ⟨⟨.backtracking, ⟨cells, t :: (ts ++ [e]),
            modifyLast (fun p => p.add_step (rectDirections.getD i ' ')) paths,
            true, lm, rnd⟩⟩, ?_, ?_, by omega, fun _ => hm3,
          Or.inr (Or.inr (Or.inl ⟨t, ts ++ [e], i, hilt, rfl, rfl, rfl, rfl, rfl,
            hv2, rfl, rfl, rfl⟩))⟩
        · show grow (rectCfg sob db) rng
              ⟨cells, t :: (ts ++ [e]), paths, false, lm, rnd⟩ >>= _ = _
          rw [hgrowEq, ok_bind]
          rfl
        · exact ⟨hg, hb, ⟨by simp only [List.length_cons, List.length_append, List.length_singleton]; omega, t :: ts, e, rfl, htops⟩,
            modifyLast_ne_nil _ hp, fun h => Mode.noConfusion h⟩

/-- A backtracking step of the rectangular machine under the invariant:
either the stack is down to the entrance pair and the machine finishes, or it
pops a dead cell (measure down), or it finds an unvisited neighbour of the
stack top and hands control back to growth (measure up by one, with an
unvisited neighbour guaranteed at the new top). -/
lemma rect_backtrack_step {rows cols sob : ℕ} {db : Option (List (Char × ℕ))}
    {rng : ℕ → ℕ} {m : Machine}
    (hInv : InvT rows cols m) (hmode : m.mode = .backtracking) :
    (m.st.stack.length = 2 ∧ machineStep (rectCfg sob db) rng m = .ok ⟨.done, m.st⟩
      ∧ StepShape m ⟨.done, m.st⟩)
    ∨ (∃ m', machineStep (rectCfg sob db) rng m = .ok m' ∧ InvT rows cols m'
        ∧ measureM m' < measureM m ∧ StepShape m m')
    ∨ (∃ m', machineStep (rectCfg sob db) rng m = .ok m' ∧ InvT rows cols m'
        ∧ m'.mode = .growing ∧ measureM m' = measureM m + 1
        ∧ (∃ off ∈ rectCheckPoints,
            gridGet m'.st.cells (cadd (m'.st.stack.headD (0, 0)) off) = .ok 0)
        ∧ StepShape m m') := by
  obtain ⟨mode, st⟩ := m
  obtain ⟨cells, stack, paths, fe, lm, rnd⟩ := st
  have hmode' : mode = .backtracking := hmode
  subst hmode'
  obtain ⟨hgP, hbP, hsP, hpP, -⟩ := hInv
  have hg : gridOK rows cols cells := hgP
  have hb : boundaryOK rows cols cells := hbP
  have hp : paths ≠ [] := hpP
  obtain ⟨hlen2P, tops, e, hstackP, htops⟩ := hsP
  have hlen2 : 2 ≤ stack.length := hlen2P
  cases tops with
  | nil =>
    have hstack : stack = [] ++ [e] := hstackP
    rw [hstack] at hlen2
    simp at hlen2
  | cons t ts =>
    have hstack : stack = t :: (ts ++ [e]) := hstackP
    subst hstack
    by_cases hlen : (t :: (ts ++ [e])).length = 2
    · left
      refine ⟨hlen, ?_, Or.inr (Or.inr (Or.inr (Or.inr (Or.inr (Or.inl ⟨rfl, rfl, rfl⟩)))))⟩
      show (if (t :: (ts ++ [e])).length = 2 then _ else _) = _
      rw [if_pos hlen]
    · right
      have hcur : interior rows cols t := htops t (List.mem_cons_self t ts)
      have hreads : ∀ off ∈ rectCheckPoints, ∃ x, gridGet cells (cadd t off) = .ok x := by
        intro off hoff
        obtain ⟨b0, b1, b2, b3⟩ := rect_target_bounds hcur hoff
        exact ⟨_, rect_gridGet hg b0 b1 b2 b3⟩
      obtain ⟨res0, hscan0⟩ := scanFor_ok_of_reads 0 hreads
      cases res0 with
      | some j =>
        right
        refine ⟨⟨.growing, ⟨cells, t :: (ts ++ [e]), paths ++ [⟨t, []⟩], fe, lm, rnd⟩⟩,
          ?_, ?_, rfl, ?_, ?_,
          Or.inr (Or.inr (Or.inr (Or.inr (Or.inl ⟨t, ts ++ [e], rfl, rfl, rfl, rfl⟩))))⟩
        · show (if (t :: (ts ++ [e])).length = 2 then _ else _) = _
          rw [if_neg hlen]
          show (rectCfg sob db).checkPoints
              ⟨cells, t :: (ts ++ [e]), paths, fe, lm, rnd⟩ >>= _ = _
          rw [show (rectCfg sob db).checkPoints
              ⟨cells, t :: (ts ++ [e]), paths, fe, lm, rnd⟩
              = (.ok rectCheckPoints : Except Err (List Cell)) from rfl, ok_bind]
          show scanFor cells t 0 rectCheckPoints >>= _ = _
          rw [hscan0, ok_bind]
        · exact ⟨hg, hb,
            ⟨by simp only [List.length_cons, List.length_append, List.length_singleton]; omega,
              t :: ts, e, rfl, htops⟩,
            by simp, fun h => Mode.noConfusion h⟩
        · cases fe <;> simp [measureM]
        · obtain ⟨hjlt, hj⟩ := scanFor_some_val hscan0
          exact ⟨rectCheckPoints.get ⟨j, hjlt⟩, List.get_mem _ _ _, hj⟩
      | none =>
        left
        refine ⟨⟨.backtracking, ⟨cells, ts ++ [e], paths, fe, lm, rnd⟩⟩, ?_, ?_, ?_,
          Or.inr (Or.inr (Or.inr (Or.inl ⟨rfl, rfl, rfl, ⟨t, rfl⟩, rfl, rfl⟩)))⟩
        · show (if (t :: (ts ++ [e])).length = 2 then _ else _) = _
          rw [if_neg hlen]
          show (rectCfg sob db).checkPoints
              ⟨cells, t :: (ts ++ [e]), paths, fe, lm, rnd⟩ >>= _ = _
          rw [show (rectCfg sob db).checkPoints
              ⟨cells, t :: (ts ++ [e]), paths, fe, lm, rnd⟩
              = (.ok rectCheckPoints : Except Err (List Cell)) from rfl, ok_bind]
          show scanFor cells t 0 rectCheckPoints >>= _ = _
          rw [hscan0, ok_bind]
        · refine ⟨hg, hb, ⟨?_, ts, e, rfl, fun c hc => htops c (List.mem_cons_of_mem t hc)⟩,
            hp, fun h => Mode.noConfusion h⟩
          have : (t :: (ts ++ [e])).length ≠ 2 := hlen
          simp only [List.length_cons, List.length_append, List.length_singleton] at this ⊢
          omega
        · cases fe <;> simp [measureM]

lemma runN_succ_of_step {cfg : GrowCfg} {rng : ℕ → ℕ} {m m₁ : Machine} {n : ℕ}
    (h : machineStep cfg rng m = .ok m₁) :
    runN cfg rng (n + 1) m = runN cfg rng n m₁ := by
  show machineStep cfg rng m >>= _ = _
  rw [h, ok_bind]

/-- The machine built by `rectStart` satisfies the growth invariant whenever
the dimensions are positive. -/
lemma rectStart_InvT {rows cols : ℕ} {et : String} {cv : Option (ℕ × ℕ)}
    {sob : ℕ} {db : Option (List (Char × ℕ))} {m0 : Machine} {E : Cell}
    (hr : 1 ≤ rows) (hc : 1 ≤ cols)
    (h : rectStart rows cols et cv sob db = .ok (m0, E)) :
    InvT rows cols m0 ∧ m0.mode = .growing := by
  obtain ⟨g, hsetup, hm0⟩ := rectStart_ok_elim h
  obtain ⟨-, hgOK, hbOK⟩ := rectSetup_ok_elim hsetup
  subst hm0
  refine ⟨⟨gridOK_setVal hgOK _ _, boundaryOK_setVal hbOK _ one_ne_zero,
    ⟨by simp, [((1 : ℤ), (((cols + 1) / 2 : ℕ) : ℤ))], ((0 : ℤ), (((cols + 1) / 2 : ℕ) : ℤ)),
      rfl, ?_⟩, by simp, fun hd => Mode.noConfusion hd⟩, rfl⟩
  intro c hcm
  have hcq : c = ((1 : ℤ), (((cols + 1) / 2 : ℕ) : ℤ)) := by simpa using hcm
  subst hcq
  have h1 : 1 ≤ (cols + 1) / 2 := by omega
  have h2 : (cols + 1) / 2 ≤ cols := by omega
  refine ⟨le_refl _, ?_, ?_, ?_⟩
  · show (1 : ℤ) ≤ (rows : ℤ)
    exact_mod_cast hr
  · show (1 : ℤ) ≤ (((cols + 1) / 2 : ℕ) : ℤ)
    exact_mod_cast h1
  · show (((cols + 1) / 2 : ℕ) : ℤ) ≤ (cols : ℤ)
    exact_mod_cast h2

/-- Strong induction on the termination measure: from any invariant state the
rectangular machine reaches the finished mode with the stack reduced to the
entrance pair. -/
lemma rect_run_terminates_aux {rows cols sob : ℕ} {db : Option (List (Char × ℕ))}
    {rng : ℕ → ℕ} :
    ∀ (k : ℕ) (m : Machine), measureM m ≤ k → InvT rows cols m →
      ∃ n m', runN (rectCfg sob db) rng n m = .ok m'
        ∧ m'.mode = .done ∧ m'.st.stack.length = 2
  | 0, m, hle, hInv => by
    exfalso
    have h2 : 2 ≤ m.st.stack.length := hInv.2.2.1.1
    have h3 : m.st.stack.length ≤ measureM m :=
      le_trans (Nat.le_add_left _ _) (Nat.le_add_right _ _)
    omega
  | k + 1, m, hle, hInv => by
    cases hm : m.mode with
    | done => exact ⟨0, m, rfl, hm, hInv.2.2.2.2 hm⟩
    | growing =>
      obtain ⟨m', hstep, hInv', hlt, -, -⟩ :=
        @rect_grow_step rows cols sob db rng m hInv hm
      obtain ⟨n, m'', hrun, hdone, hlen⟩ := rect_run_terminates_aux k m' (by omega) hInv'
      exact ⟨n + 1, m'', by rw [runN_succ_of_step hstep]; exact hrun, hdone, hlen⟩
    | backtracking =>
      rcases @rect_backtrack_step rows cols sob db rng m hInv hm with
        ⟨hlen2, hstep, -⟩ | ⟨m', hstep, hInv', hlt, -⟩
        | ⟨m', hstep, hInv', hgrow, hmeq, hz, -⟩
      · refine ⟨1, ⟨.done, m.st⟩, ?_, rfl, hlen2⟩
        show runN (rectCfg sob db) rng (0 + 1) m = _
        rw [runN_succ_of_step hstep]
        rfl
      · obtain ⟨n, m'', hrun, hdone, hlen⟩ := rect_run_terminates_aux k m' (by omega) hInv'
        exact ⟨n + 1, m'', by rw [runN_succ_of_step hstep]; exact hrun, hdone, hlen⟩
      · obtain ⟨m2, hstep2, hInv2, hlt2, himp, -⟩ :=
          @rect_grow_step rows cols sob db rng m' hInv' hgrow
        have h3 := himp hz
        obtain ⟨n, m'', hrun, hdone, hlen⟩ := rect_run_terminates_aux k m2 (by omega) hInv2
        refine ⟨n + 2, m'', ?_, hdone, hlen⟩
        show runN (rectCfg sob db) rng (n + 1 + 1) m = _
        rw [runN_succ_of_step hstep, runN_succ_of_step hstep2]
        exact hrun

/-- C3: for every rectangular configuration with positive dimensions and every
random source, the growth loop terminates in finitely many steps — every step
marks a previously-unvisited cell, finds the exit, or pops the stack — and on
termination the walk stack has length exactly 2. -/
theorem C3_rect_growth_terminates (rows cols : ℕ) (et : String)
    (cv : Option (ℕ × ℕ)) (sob : ℕ) (db : Option (List (Char × ℕ)))
    (rng : ℕ → ℕ) (m0 : Machine) (E : Cell)
    (hr : 1 ≤ rows) (hc : 1 ≤ cols)
    (h : rectStart rows cols et cv sob db = .ok (m0, E)) :
    ∃ n m', runN (rectCfg sob db) rng n m0 = .ok m'
      ∧ m'.mode = .done ∧ m'.st.stack.length = 2 := by
  obtain ⟨hInv, -⟩ := rectStart_InvT hr hc h
  exact rect_run_terminates_aux (measureM m0) m0 le_rfl hInv

/-- Witness for C3 at the spec's 3×3 scenario with entrance in the middle of
the top row and the constant random source. -/
theorem C3_rect_growth_terminates_witness :
    ∃ n m', runN (rectCfg 0 none) (fun _ => 0) n
        ⟨.growing, ⟨[[1, 1, 1, 1, 1], [1, 0, 1, 0, 1], [1, 0, 0, 0, 1],
            [1, 0, 0, 0, 1], [1, 1, 2, 1, 1]],
          [((1 : ℤ), (2 : ℤ)), ((0 : ℤ), (2 : ℤ))],
          [⟨((0 : ℤ), (2 : ℤ)), [['S']]⟩], false, none, 0⟩⟩ = .ok m'
      ∧ m'.mode = .done ∧ m'.st.stack.length = 2 :=
  C3_rect_growth_terminates 3 3 "side" none 0 none (fun _ => 0)
    ⟨.growing, ⟨[[1, 1, 1, 1, 1], [1, 0, 1, 0, 1], [1, 0, 0, 0, 1],
        [1, 0, 0, 0, 1], [1, 1, 2, 1, 1]],
      [((1 : ℤ), (2 : ℤ)), ((0 : ℤ), (2 : ℤ))],
      [⟨((0 : ℤ), (2 : ℤ)), [['S']]⟩], false, none, 0⟩⟩ ((4 : ℤ), (2 : ℤ))
    (by decide) (by decide) (by decide)

/-- Any successful machine step from an invariant rectangular state keeps the
invariant and realises one of the seven transition shapes. -/
lemma rect_step_invariants {rows cols sob : ℕ} {db : Option (List (Char × ℕ))}
    {rng : ℕ → ℕ} {m m' : Machine}
    (hInv : InvT rows cols m) (h : machineStep (rectCfg sob db) rng m = .ok m') :
    InvT rows cols m' ∧ StepShape m m' := by
  cases hm : m.mode with
  | done =>
    obtain ⟨mode, st⟩ := m
    have hm' : mode = .done := hm
    subst hm'
    have h2 : (Except.ok (⟨.done, st⟩ : Machine) : Except Err Machine) = .ok m' := h
    obtain rfl := Except.ok.inj h2
    exact ⟨hInv, Or.inr (Or.inr (Or.inr (Or.inr (Or.inr (Or.inr ⟨rfl, rfl⟩)))))⟩
  | growing =>
    obtain ⟨m'', hstep, hInv', -, -, hshape⟩ :=
      @rect_grow_step rows cols sob db rng m hInv hm
    rw [h] at hstep
    obtain rfl := Except.ok.inj hstep
    exact ⟨hInv', hshape⟩
  | backtracking =>
    rcases @rect_backtrack_step rows cols sob db rng m hInv hm with
      ⟨hlen2, hstep, hshape⟩ | ⟨m'', hstep, hInv', -, hshape⟩
      | ⟨m'', hstep, hInv', -, -, -, hshape⟩
    · rw [h] at hstep
      obtain rfl := Except.ok.inj hstep
      exact ⟨⟨hInv.1, hInv.2.1, hInv.2.2.1, hInv.2.2.2.1, fun _ => hlen2⟩, hshape⟩
    · rw [h] at hstep
      obtain rfl := Except.ok.inj hstep
      exact ⟨hInv', hshape⟩
    · rw [h] at hstep
      obtain rfl := Except.ok.inj hstep
      exact ⟨hInv', hshape⟩

lemma addStepList_flatten : ∀ (ss : List (List Char)) (d : Char),
    (addStepList ss d).flatten = ss.flatten ++ [d]
  | [], d => by simp [addStepList]
  | [s], d => by
    rw [addStepList]
    split <;> simp
  | s :: s' :: rest, d => by
    rw [addStepList]
    simp only [List.flatten_cons, addStepList_flatten (s' :: rest) d]
    simp [List.append_assoc]

lemma fragTargetsAux_append (delta : Char → Cell) (d : Char) :
    ∀ (xs : List Char) (pos : Cell),
      fragTargetsAux delta pos (xs ++ [d])
        = fragTargetsAux delta pos xs
          ++ [cadd ((fragTargetsAux delta pos xs).getLastD pos) (delta d)]
  | [], pos => by simp [fragTargetsAux]
  | x :: xs, pos => by
    rw [List.cons_append, fragTargetsAux, fragTargetsAux,
      fragTargetsAux_append delta d xs (cadd pos (delta x))]
    have hL : (cadd pos (delta x)
          :: fragTargetsAux delta (cadd pos (delta x)) xs).getLastD pos
        = (fragTargetsAux delta (cadd pos (delta x)) xs).getLastD (cadd pos (delta x)) := by
      cases fragTargetsAux delta (cadd pos (delta x)) xs with
      | nil => rfl
      | cons y ys =>
        simp only [List.getLastD_eq_getLast?, List.getLast?_cons_cons]
        cases hq : (y :: ys).getLast? with
        | none => exact absurd hq (by simp)
        | some a => rfl
    rw [List.cons_append, hL]

lemma fragTargets_add_step (delta : Char → Cell) (p : PathPart) (d : Char) :
    fragTargets delta (p.add_step d)
      = fragTargets delta p ++ [cadd (fragEnd delta p) (delta d)] := by
  show fragTargetsAux delta p.start_cell (addStepList p.steps d).flatten = _
  rw [addStepList_flatten, fragTargetsAux_append]
  rfl

lemma fragEnd_add_step (delta : Char → Cell) (p : PathPart) (d : Char) :
    fragEnd delta (p.add_step d) = cadd (fragEnd delta p) (delta d) := by
  show (fragTargets delta (p.add_step d)).getLastD (p.add_step d).start_cell = _
  rw [fragTargets_add_step]
  simp

lemma exitStepCnt_add_step (g0 : Grid) (p : PathPart) (d : Char) :
    exitStepCnt g0 (p.add_step d)
      = exitStepCnt g0 p
        + (if valAt g0 (cadd (fragEnd rectDelta p) (rectDelta d)) = 2 then 1 else 0) := by
  show (fragTargets rectDelta (p.add_step d)).countP _ = _
  rw [fragTargets_add_step, List.countP_append]
  simp [exitStepCnt, List.countP_cons]

lemma modifyLast_eq_concat {α : Type} (f : α → α) :
    ∀ (l : List α) (h : l ≠ []), modifyLast f l = l.dropLast ++ [f (l.getLast h)]
  | [a], _ => rfl
  | a :: a' :: rest, _ => by
    rw [modifyLast, modifyLast_eq_concat f (a' :: rest) (List.cons_ne_nil a' rest)]
    rfl

lemma fragTargets_empty (delta : Char → Cell) (t : Cell) :
    fragTargets delta ⟨t, []⟩ = [] := rfl

lemma gridMono_refl (g : Grid) : gridMono g g := fun _ => Or.inl rfl

lemma gridMono_trans {a b c : Grid} (h1 : gridMono a b) (h2 : gridMono b c) :
    gridMono a c := by
  intro x
  rcases h2 x with h | ⟨hb0, hc1⟩
  · rw [h]
    exact h1 x
  · rcases h1 x with h' | ⟨ha0, hb1⟩
    · rw [h'] at hb0
      exact Or.inr ⟨hb0, hc1⟩
    · rw [hb1] at hb0
      exact absurd hb0 one_ne_zero

lemma gridMono_setVal_write {g : Grid} {cell : Cell} (hv : valAt g cell = 0) :
    gridMono g (setVal g cell 1) := by
  intro c
  rcases valAt_setVal_cases g cell c 1 with h | h
  · exact Or.inl h
  · by_cases hc : c = cell
    · subst hc
      exact Or.inr ⟨hv, h⟩
    · by_cases ht : cell.1.toNat = c.1.toNat ∧ cell.2.toNat = c.2.toNat
      · have hval : valAt (setVal g cell 1) c = valAt (setVal g cell 1) cell := by
          simp only [valAt, setVal, ht.1, ht.2]
        have hvo : valAt g c = valAt g cell := by
          simp only [valAt, ht.1, ht.2]
        rw [hval]
        rcases valAt_setVal_cases g cell cell 1 with h2 | h2
        · rw [h2, hvo]
          exact Or.inl rfl
        · rw [h2, hvo]
          exact Or.inr ⟨hv, rfl⟩
      · left
        rw [Decidable.not_and_iff_or_not] at ht
        exact valAt_setVal_ne ht
  
lemma gridMono_ne_zero {g0 g : Grid} (h : gridMono g0 g) {c : Cell}
    (hc : valAt g0 c ≠ 0) : valAt g c = valAt g0 c := by
  rcases h c with he | ⟨h0, -⟩
  · exact he
  · exact absurd h0 hc

lemma gridMono_val2 {g0 g : Grid} (h : gridMono g0 g) (c : Cell) :
    valAt g c = 2 ↔ valAt g0 c = 2 := by
  constructor <;> intro hx
  · rcases h c with he | ⟨-, h1⟩
    · rw [he] at hx
      exact hx
    · rw [h1] at hx
      exact absurd hx (by decide)
  · rcases h c with he | ⟨h0, -⟩
    · rw [he, hx]
    · rw [hx] at h0
      exact absurd h0 (by decide)

/-- Any successful step keeps the grid-level run invariant. -/
lemma rect_step_GridInv {rows cols sob : ℕ} {db : Option (List (Char × ℕ))}
    {rng : ℕ → ℕ} {g0 : Grid} {m m' : Machine}
    (hG : GridInv rows cols g0 m)
    (h : machineStep (rectCfg sob db) rng m = .ok m') :
    GridInv rows cols g0 m' := by
  obtain ⟨hInv, hmono, hcnt⟩ := hG
  obtain ⟨hInv', hshape⟩ := rect_step_invariants hInv h
  have hc2 : m'.st.cells = m.st.cells
      ∨ ∃ c, valAt m.st.cells c = 0 ∧ c.1.toNat < m.st.cells.length
          ∧ c.2.toNat < (m.st.cells.getD c.1.toNat []).length
          ∧ m'.st.cells = setVal m.st.cells c 1 := by
    rcases hshape with ⟨t, rest, off, mv, -, -, -, -, hv0, hb1, hb2, hcells, -, -, -, -⟩
      | ⟨-, -, hst⟩ | ⟨t, rest, i, hi, -, -, -, -, -, -, hcells, -, -⟩
      | ⟨-, -, hcells, -, -, -⟩ | ⟨t, rest, -, -, -, hst⟩ | ⟨-, -, hst⟩ | ⟨-, heq⟩
    · exact Or.inr ⟨cadd t off, hv0, hb1, hb2, hcells⟩
    · exact Or.inl (by rw [hst])
    · exact Or.inl hcells
    · exact Or.inl hcells
    · exact Or.inl (by rw [hst])
    · exact Or.inl (by rw [hst])
    · exact Or.inl (by rw [heq])
  rcases hc2 with he | ⟨c, hv0, hb1, hb2, he⟩
  · rw [GridInv, he]
    exact ⟨hInv', hmono, hcnt⟩
  · refine ⟨hInv', ?_, ?_⟩
    · rw [he]
      exact gridMono_trans hmono (gridMono_setVal_write hv0)
    · rw [he, countVal_setVal_other hb1 hb2 (by rw [hv0]; decide) (by decide)]
      exact hcnt

lemma no_exit_pos_of_cnt_zero {g0 : Grid} {p : PathPart} (h : exitStepCnt g0 p = 0) :
    ∀ x ∈ fragTargets rectDelta p, ¬ valAt g0 x = 2 := by
  intro x hx
  have h2 := List.countP_eq_zero.mp h x hx
  simpa using h2

lemma all_cnt_zero_of_sum_zero {g0 : Grid} {L : List PathPart}
    (h : (L.map (exitStepCnt g0)).sum = 0) : ∀ p ∈ L, exitStepCnt g0 p = 0 := by
  intro p hp
  exact List.sum_eq_zero_iff.mp h (exitStepCnt g0 p) (List.mem_map_of_mem _ hp)

lemma getLastD_mem {α : Type} {L : List α} {d : α} (h : L ≠ []) : L.getLastD d ∈ L := by
  rw [getLastD_eq_getLast _ _ h]
  exact List.getLast_mem h

lemma sum_split_last {g0 : Grid} (L : List PathPart) (h : L ≠ []) :
    (L.map (exitStepCnt g0)).sum
      = (L.dropLast.map (exitStepCnt g0)).sum
        + exitStepCnt g0 (L.getLastD ⟨(0, 0), []⟩) := by
  conv_lhs => rw [← List.dropLast_append_getLast h]
  rw [List.map_append, List.sum_append, getLastD_eq_getLast _ _ h]
  simp

/-- Any successful step keeps the fragment-level run invariant. -/
lemma rect_step_PathsInv {rows cols sob : ℕ} {db : Option (List (Char × ℕ))}
    {rng : ℕ → ℕ} {g0 : Grid} {m m' : Machine}
    (hG : GridInv rows cols g0 m) (hP : PathsInv g0 m)
    (h : machineStep (rectCfg sob db) rng m = .ok m') :
    PathsInv g0 m' := by
  obtain ⟨hInv, hmono, -⟩ := hG
  obtain ⟨hA, hB, hC, hD, hE⟩ := hP
  obtain ⟨-, hshape⟩ := rect_step_invariants hInv h
  have hpne : m.st.paths ≠ [] := hInv.2.2.2.1
  rcases hshape with
    ⟨t, rest, off, mv, hgm, hgm', hstk, hoffmem, hv0, hb1, hb2, hcells, hstk', hpaths', hdelta, hfe'⟩
    | ⟨hgm, hgm', hst⟩
    | ⟨t, rest, i, hi, hgm, hgm', hstk, hfe, hfe', hv2, hcells, hstk2, hpaths'⟩
    | ⟨hbm, hbm', hcells, ⟨t, hstk⟩, hpaths, hfe⟩
    | ⟨t, rest, hbm, hgm', hstk, hst⟩
    | ⟨hbm, hdm', hst⟩
    | ⟨hdm, heq⟩
  · -- a move into an unvisited neighbour
    have hhead : m.st.stack.headD (0, 0) = t := by rw [hstk]; rfl
    have hCe : fragEnd rectDelta (m.st.paths.getLastD ⟨(0, 0), []⟩) = t := by
      rw [hC hgm, hhead]
    have htgt0 : ¬ valAt g0 (cadd t off) = 2 := by
      intro h2
      have hnz : valAt g0 (cadd t off) ≠ 0 := by rw [h2]; decide
      have he := gridMono_ne_zero hmono hnz
      rw [hv0, h2] at he
      exact absurd he (by decide)
    have hlast0 : exitStepCnt g0 (m.st.paths.getLastD ⟨(0, 0), []⟩) = 0 := by
      cases hfe : m.st.found_exit with
      | true => exact hD hgm hfe
      | false =>
        rw [hfe] at hA
        simp only [Bool.false_eq_true, if_false] at hA
        exact all_cnt_zero_of_sum_zero hA (m.st.paths.getLastD ⟨(0, 0), []⟩) (getLastD_mem hpne)
    have hadd : exitStepCnt g0 ((m.st.paths.getLastD ⟨(0, 0), []⟩).add_step mv) = 0 := by
      rw [exitStepCnt_add_step, hlast0, hCe, hdelta, if_neg htgt0]
    have hdec : m'.st.paths
        = m.st.paths.dropLast ++ [(m.st.paths.getLastD ⟨(0, 0), []⟩).add_step mv] := by
      rw [hpaths', modifyLast_eq_concat _ _ hpne, getLastD_eq_getLast _ _ hpne]
    refine ⟨?_, ?_, ?_, ?_, ?_⟩
    · rw [hdec, List.map_append, List.sum_append, hfe']
      have hsplit := @sum_split_last g0 m.st.paths hpne
      rw [hsplit, hlast0, Nat.add_zero] at hA
      simp only [List.map_cons, List.map_nil, List.sum_cons, List.sum_nil, hadd]
      rw [Nat.add_zero, Nat.add_zero]
      exact hA
    · intro p hp i2 hilt hval
      rw [hdec] at hp
      rcases List.mem_append.mp hp with hp1 | hp2
      · exact hB p (List.dropLast_subset _ hp1) i2 hilt hval
      · have hpe : p = (m.st.paths.getLastD ⟨(0, 0), []⟩).add_step mv := by simpa using hp2
        subst hpe
        exact absurd hval (no_exit_pos_of_cnt_zero hadd _ (getD_mem _ hilt))
    · rintro -
      rw [hdec, hstk', List.getLastD_concat, fragEnd_add_step, hCe, hdelta]
      rfl
    · rintro - -
      rw [hdec, List.getLastD_concat]
      exact hadd
    · intro c hc
      rw [hstk'] at hc
      rcases List.mem_cons.mp hc with rfl | hc2
      · exact htgt0
      · exact hE c (by rw [hstk]; exact hc2)
  · -- a dead end: the state is unchanged
    refine ⟨by rw [hst]; exact hA, by rw [hst]; exact hB, ?_, ?_, by rw [hst]; exact hE⟩
    · intro hmode
      exact absurd (hgm'.symm.trans hmode) (by decide)
    · intro hmode _
      exact absurd (hgm'.symm.trans hmode) (by decide)
  · -- the exit stub
    have hhead : m.st.stack.headD (0, 0) = t := by rw [hstk]; rfl
    have hCe : fragEnd rectDelta (m.st.paths.getLastD ⟨(0, 0), []⟩) = t := by
      rw [hC hgm, hhead]
    have htgt2 : valAt g0 (cadd t (rectCheckPoints.get ⟨i, hi⟩)) = 2 :=
      (gridMono_val2 hmono _).mp hv2
    have hall0 : ∀ p ∈ m.st.paths, exitStepCnt g0 p = 0 := by
      rw [hfe] at hA
      simp only [Bool.false_eq_true, if_false] at hA
      exact all_cnt_zero_of_sum_zero hA
    have hlast0 := hall0 (m.st.paths.getLastD ⟨(0, 0), []⟩) (getLastD_mem hpne)
    have hadd : exitStepCnt g0
        ((m.st.paths.getLastD ⟨(0, 0), []⟩).add_step (rectDirections.getD i ' ')) = 1 := by
      rw [exitStepCnt_add_step, hlast0, hCe, rect_delta_getD i hi, if_pos htgt2]
    have hdec : m'.st.paths = m.st.paths.dropLast
        ++ [(m.st.paths.getLastD ⟨(0, 0), []⟩).add_step (rectDirections.getD i ' ')] := by
      rw [hpaths', modifyLast_eq_concat _ _ hpne, getLastD_eq_getLast _ _ hpne]
    refine ⟨?_, ?_, ?_, ?_, ?_⟩
    · rw [hdec, List.map_append, List.sum_append, hfe']
      have hdrop0 : (m.st.paths.dropLast.map (exitStepCnt g0)).sum = 0 := by
        apply List.sum_eq_zero
        intro x hx
        obtain ⟨p, hp, rfl⟩ := List.mem_map.mp hx
        exact hall0 p (List.dropLast_subset _ hp)
      rw [hdrop0]
      simpa using hadd
    · intro p hp i2 hilt hval
      rw [hdec] at hp
      rcases List.mem_append.mp hp with hp1 | hp2
      · exact hB p (List.dropLast_subset _ hp1) i2 hilt hval
      · have hpe : p = (m.st.paths.getLastD ⟨(0, 0), []⟩).add_step
            (rectDirections.getD i ' ') := by simpa using hp2
        subst hpe
        have hlen2 : (fragTargets rectDelta ((m.st.paths.getLastD ⟨(0, 0), []⟩).add_step
              (rectDirections.getD i ' '))).length
            = (fragTargets rectDelta (m.st.paths.getLastD ⟨(0, 0), []⟩)).length + 1 := by
          rw [fragTargets_add_step]
          simp
        by_cases hi2 : i2 < (fragTargets rectDelta (m.st.paths.getLastD ⟨(0, 0), []⟩)).length
        · exfalso
          have hgetd : (fragTargets rectDelta ((m.st.paths.getLastD ⟨(0, 0), []⟩).add_step
                (rectDirections.getD i ' '))).getD i2 ((0 : ℤ), (0 : ℤ))
              = (fragTargets rectDelta (m.st.paths.getLastD ⟨(0, 0), []⟩)).getD i2
                  ((0 : ℤ), (0 : ℤ)) := by
            rw [fragTargets_add_step]
            exact List.getD_append _ _ _ _ hi2
          rw [hgetd] at hval
          exact no_exit_pos_of_cnt_zero hlast0 _ (getD_mem _ hi2) hval
        · rw [hlen2] at hilt ⊢
          omega
    · intro hmode
      exact absurd (hgm'.symm.trans hmode) (by decide)
    · intro hmode _
      exact absurd (hgm'.symm.trans hmode) (by decide)
    · intro c hc
      rw [hstk2] at hc
      exact hE c hc
  · -- a stack pop
    refine ⟨?_, ?_, ?_, ?_, ?_⟩
    · rw [hpaths, hfe]
      exact hA
    · rw [hpaths]
      exact hB
    · intro hmode
      exact absurd (hbm'.symm.trans hmode) (by decide)
    · intro hmode _
      exact absurd (hbm'.symm.trans hmode) (by decide)
    · intro c hc
      exact hE c (by rw [hstk]; exact List.mem_cons_of_mem _ hc)
  · -- the backtrack-to-growth hand-off
    have hpaths' : m'.st.paths = m.st.paths ++ [⟨t, []⟩] := by rw [hst]
    have hstk' : m'.st.stack = m.st.stack := by rw [hst]
    have hfe' : m'.st.found_exit = m.st.found_exit := by rw [hst]
    refine ⟨?_, ?_, ?_, ?_, ?_⟩
    · rw [hpaths', List.map_append, List.sum_append, hfe']
      have hz : exitStepCnt g0 ⟨t, []⟩ = 0 := rfl
      simpa [hz] using hA
    · intro p hp i2 hilt hval
      rw [hpaths'] at hp
      rcases List.mem_append.mp hp with hp1 | hp2
      · exact hB p hp1 i2 hilt hval
      · have hpe : p = ⟨t, []⟩ := by simpa using hp2
        subst hpe
        rw [fragTargets_empty] at hilt
        exact absurd hilt (Nat.not_lt_zero i2)
    · rintro -
      rw [hpaths', hstk', List.getLastD_concat, hstk]
      rfl
    · rintro - -
      rw [hpaths', List.getLastD_concat]
      rfl
    · intro c hc
      rw [hstk'] at hc
      exact hE c hc
  · -- the finish transition
    refine ⟨by rw [hst]; exact hA, by rw [hst]; exact hB, ?_, ?_, by rw [hst]; exact hE⟩
    · intro hmode
      exact absurd (hdm'.symm.trans hmode) (by decide)
    · intro hmode _
      exact absurd (hdm'.symm.trans hmode) (by decide)
  · -- already finished
    rw [heq]
    exact ⟨hA, hB, hC, hD, hE⟩

/-- The grid-level invariant holds along any successful run prefix. -/
lemma rect_run_GridInv {rows cols sob : ℕ} {db : Option (List (Char × ℕ))}
    {rng : ℕ → ℕ} {g0 : Grid} :
    ∀ (n : ℕ) (m m' : Machine), GridInv rows cols g0 m →
      runN (rectCfg sob db) rng n m = .ok m' → GridInv rows cols g0 m'
  | 0, m, m', hG, h => by
    have h2 : (Except.ok m : Except Err Machine) = .ok m' := h
    obtain rfl := Except.ok.inj h2
    exact hG
  | n + 1, m, m', hG, h => by
    cases hstep : machineStep (rectCfg sob db) rng m with
    | error e =>
      have h2 : machineStep (rectCfg sob db) rng m >>= _ = Except.ok m' := h
      rw [hstep] at h2
      have h3 : (Except.error e : Except Err Machine) = .ok m' := h2
      cases h3
    | ok m1 =>
      have hG1 := rect_step_GridInv hG hstep
      have h2 : runN (rectCfg sob db) rng n m1 = .ok m' := by
        rw [← runN_succ_of_step hstep]
        exact h
      exact rect_run_GridInv n m1 m' hG1 h2

/-- Both run invariants hold along any successful run prefix. -/
lemma rect_run_invariants {rows cols sob : ℕ} {db : Option (List (Char × ℕ))}
    {rng : ℕ → ℕ} {g0 : Grid} :
    ∀ (n : ℕ) (m m' : Machine), GridInv rows cols g0 m → PathsInv g0 m →
      runN (rectCfg sob db) rng n m = .ok m' →
      GridInv rows cols g0 m' ∧ PathsInv g0 m'
  | 0, m, m', hG, hP, h => by
    have h2 : (Except.ok m : Except Err Machine) = .ok m' := h
    obtain rfl := Except.ok.inj h2
    exact ⟨hG, hP⟩
  | n + 1, m, m', hG, hP, h => by
    cases hstep : machineStep (rectCfg sob db) rng m with
    | error e =>
      have h2 : machineStep (rectCfg sob db) rng m >>= _ = Except.ok m' := h
      rw [hstep] at h2
      have h3 : (Except.error e : Except Err Machine) = .ok m' := h2
      cases h3
    | ok m1 =>
      have hG1 := rect_step_GridInv hG hstep
      have hP1 := rect_step_PathsInv hG hP hstep
      have h2 : runN (rectCfg sob db) rng n m1 = .ok m' := by
        rw [← runN_succ_of_step hstep]
        exact h
      exact rect_run_invariants n m1 m' hG1 hP1 h2

/-- The machine built by `rectStart` satisfies both run invariants, relative
to its own starting grid, whenever the entrance column does not hold the exit. -/
lemma rectStart_invariants {rows cols : ℕ} {et : String} {cv : Option (ℕ × ℕ)}
    {sob : ℕ} {db : Option (List (Char × ℕ))} {m0 : Machine} {E : Cell}
    (hr : 1 ≤ rows) (hc : 1 ≤ cols)
    (h : rectStart rows cols et cv sob db = .ok (m0, E))
    (hent : valAt m0.st.cells ((0 : ℤ), (((cols + 1) / 2 : ℕ) : ℤ)) ≠ 2) :
    GridInv rows cols m0.st.cells m0 ∧ PathsInv m0.st.cells m0 := by
  obtain ⟨hInv, -⟩ := rectStart_InvT hr hc h
  refine ⟨⟨hInv, gridMono_refl _, rfl⟩, ?_⟩
  obtain ⟨g, hsetup, hm0⟩ := rectStart_ok_elim h
  obtain ⟨-, hgOK, -⟩ := rectSetup_ok_elim hsetup
  subst hm0
  set mid : ℤ := (((cols + 1) / 2 : ℕ) : ℤ) with hmid
  have hk1 : (1 : ℤ).toNat < rows + 2 := by omega
  have hlt2 : mid.toNat < (g.getD (1 : ℤ).toNat []).length := by
    rw [gridOK_row_len hgOK hk1, hmid]
    omega
  have hval1 : valAt (setVal g ((1 : ℤ), mid) 1) ((1 : ℤ), mid) = 1 :=
    valAt_setVal_self (by rw [hgOK.1]; omega) hlt2
  have htg : fragTargets rectDelta ⟨((0 : ℤ), mid), [['S']]⟩
      = [((0 : ℤ) + 1, mid + 0)] := rfl
  have hcell : ((0 : ℤ) + 1, mid + 0) = ((1 : ℤ), mid) := by norm_num
  have hcnt0 : exitStepCnt (setVal g ((1 : ℤ), mid) 1) ⟨((0 : ℤ), mid), [['S']]⟩ = 0 := by
    show (fragTargets rectDelta ⟨((0 : ℤ), mid), [['S']]⟩).countP _ = 0
    rw [htg]
    simp [hcell, hval1]
  refine ⟨?_, ?_, ?_, ?_, ?_⟩
  · simp [hcnt0]
  · intro p hp i hilt hval
    have hpe : p = ⟨((0 : ℤ), mid), [['S']]⟩ := by simpa using hp
    subst hpe
    rw [htg] at hilt ⊢
    simp only [List.length_cons, List.length_nil] at hilt ⊢
    omega
  · rintro -
    show ((0 : ℤ) + 1, mid + 0) = ((1 : ℤ), mid)
    exact hcell
  · rintro - hfe
    exact Bool.noConfusion hfe
  · intro c hc
    have hcm : c = ((1 : ℤ), mid) ∨ c = ((0 : ℤ), mid) := by simpa using hc
    rcases hcm with rfl | rfl
    · rw [hval1]
      decide
    · exact hent

/-- C8 (amended): throughout a run from the machine `rectStart` builds — with
the exit still present after the forced entry step — every grid mutation only
marks an unvisited cell visited, so nonzero cells keep their values, the exit
count and the exit cell's state are preserved, and the boundary stays
nonzero. -/
theorem C8_run_grid_invariants (rows cols : ℕ) (et : String) (cv : Option (ℕ × ℕ))
    (sob : ℕ) (db : Option (List (Char × ℕ))) (rng : ℕ → ℕ)
    (m0 m' : Machine) (E : Cell) (n : ℕ)
    (hr : 1 ≤ rows) (hc : 1 ≤ cols)
    (hstart : rectStart rows cols et cv sob db = .ok (m0, E))
    (hone : countVal m0.st.cells 2 = 1) (hE : valAt m0.st.cells E = 2)
    (hrun : runN (rectCfg sob db) rng n m0 = .ok m') :
    countVal m'.st.cells 2 = 1 ∧ valAt m'.st.cells E = 2
    ∧ boundaryOK rows cols m'.st.cells
    ∧ (∀ c : Cell, valAt m0.st.cells c ≠ 0 → valAt m'.st.cells c = valAt m0.st.cells c)
    ∧ (∀ c : Cell, valAt m'.st.cells c = valAt m0.st.cells c
        ∨ (valAt m0.st.cells c = 0 ∧ valAt m'.st.cells c = 1)) := by
  obtain ⟨hInv, -⟩ := rectStart_InvT hr hc hstart
  have hG0 : GridInv rows cols m0.st.cells m0 := ⟨hInv, gridMono_refl _, rfl⟩
  obtain ⟨hInv', hmono, hcnt⟩ := rect_run_GridInv n m0 m' hG0 hrun
  refine ⟨hcnt.trans hone, ?_, hInv'.2.1, fun c hcz => gridMono_ne_zero hmono hcz, hmono⟩
  have hEnz : valAt m0.st.cells E ≠ 0 := by
    rw [hE]
    decide
  rw [gridMono_ne_zero hmono hEnz, hE]

/-- C4 (amended): relative to the exit cells present as the run starts (the
forced entry step not having overwritten the exit), every reachable state has
exactly one recorded step pointing into an exit cell once the exit is found
and none before, such a stub can only be the last step of its fragment, the
exit is never pushed on the walk stack, and the set of exit cells never
changes. -/
theorem C4_exit_stub_accounting (rows cols : ℕ) (et : String) (cv : Option (ℕ × ℕ))
    (sob : ℕ) (db : Option (List (Char × ℕ))) (rng : ℕ → ℕ)
    (m0 m' : Machine) (E : Cell) (n : ℕ)
    (hr : 1 ≤ rows) (hc : 1 ≤ cols)
    (hstart : rectStart rows cols et cv sob db = .ok (m0, E))
    (hent : valAt m0.st.cells ((0 : ℤ), (((cols + 1) / 2 : ℕ) : ℤ)) ≠ 2)
    (hrun : runN (rectCfg sob db) rng n m0 = .ok m') :
    (m'.st.paths.map (exitStepCnt m0.st.cells)).sum
        = (if m'.st.found_exit then 1 else 0)
    ∧ (∀ p ∈ m'.st.paths, ∀ i : ℕ, i < (fragTargets rectDelta p).length →
        valAt m0.st.cells ((fragTargets rectDelta p).getD i ((0 : ℤ), (0 : ℤ))) = 2
        → i + 1 = (fragTargets rectDelta p).length)
    ∧ (∀ c ∈ m'.st.stack, valAt m0.st.cells c ≠ 2)
    ∧ (∀ c : Cell, valAt m'.st.cells c = 2 ↔ valAt m0.st.cells c = 2)
    ∧ countVal m'.st.cells 2 = countVal m0.st.cells 2 := by
  obtain ⟨hG0, hP0⟩ := rectStart_invariants hr hc hstart hent
  obtain ⟨⟨-, hmono, hcnt⟩, hA, hB, -, -, hE2⟩ :=
    rect_run_invariants n m0 m' hG0 hP0 hrun
  exact ⟨hA, hB, hE2, fun c => gridMono_val2 hmono c, hcnt⟩

/-- Witness for C8 at the 3×3 side-exit scenario with the constant random
source: the 60-step run completes and the amended grid invariants hold for
its final state. -/
theorem C8_run_grid_invariants_witness :
    countVal (Machine.st ⟨.done, ⟨[[1, 1, 1, 1, 1], [1, 1, 1, 1, 1], [1, 1, 1, 1, 1],
        [1, 1, 1, 1, 1], [1, 1, 2, 1, 1]],
      [((1 : ℤ), (2 : ℤ)), ((0 : ℤ), (2 : ℤ))],
      [⟨((0 : ℤ), (2 : ℤ)), [['S', 'S', 'S', 'S']]⟩,
       ⟨((3 : ℤ), (2 : ℤ)), [['W'], ['N', 'N']]⟩,
       ⟨((3 : ℤ), (2 : ℤ)), [['E'], ['N', 'N']]⟩], true, some 'N', 8⟩⟩).cells 2 = 1
    ∧ valAt (Machine.st ⟨.done, ⟨[[1, 1, 1, 1, 1], [1, 1, 1, 1, 1], [1, 1, 1, 1, 1],
        [1, 1, 1, 1, 1], [1, 1, 2, 1, 1]],
      [((1 : ℤ), (2 : ℤ)), ((0 : ℤ), (2 : ℤ))],
      [⟨((0 : ℤ), (2 : ℤ)), [['S', 'S', 'S', 'S']]⟩,
       ⟨((3 : ℤ), (2 : ℤ)), [['W'], ['N', 'N']]⟩,
       ⟨((3 : ℤ), (2 : ℤ)), [['E'], ['N', 'N']]⟩], true, some 'N', 8⟩⟩).cells ((4 : ℤ), (2 : ℤ)) = 2
    ∧ boundaryOK 3 3 (Machine.st ⟨.done, ⟨[[1, 1, 1, 1, 1], [1, 1, 1, 1, 1], [1, 1, 1, 1, 1],
        [1, 1, 1, 1, 1], [1, 1, 2, 1, 1]],
      [((1 : ℤ), (2 : ℤ)), ((0 : ℤ), (2 : ℤ))],
      [⟨((0 : ℤ), (2 : ℤ)), [['S', 'S', 'S', 'S']]⟩,
       ⟨((3 : ℤ), (2 : ℤ)), [['W'], ['N', 'N']]⟩,
       ⟨((3 : ℤ), (2 : ℤ)), [['E'], ['N', 'N']]⟩], true, some 'N', 8⟩⟩).cells
    ∧ (∀ c : Cell, valAt (Machine.st ⟨.growing, ⟨[[1, 1, 1, 1, 1], [1, 0, 1, 0, 1], [1, 0, 0, 0, 1],
        [1, 0, 0, 0, 1], [1, 1, 2, 1, 1]],
      [((1 : ℤ), (2 : ℤ)), ((0 : ℤ), (2 : ℤ))],
      [⟨((0 : ℤ), (2 : ℤ)), [['S']]⟩], false, none, 0⟩⟩).cells c ≠ 0 →
        valAt (Machine.st ⟨.done, ⟨[[1, 1, 1, 1, 1], [1, 1, 1, 1, 1], [1, 1, 1, 1, 1],
        [1, 1, 1, 1, 1], [1, 1, 2, 1, 1]],
      [((1 : ℤ), (2 : ℤ)), ((0 : ℤ), (2 : ℤ))],
      [⟨((0 : ℤ), (2 : ℤ)), [['S', 'S', 'S', 'S']]⟩,
       ⟨((3 : ℤ), (2 : ℤ)), [['W'], ['N', 'N']]⟩,
       ⟨((3 : ℤ), (2 : ℤ)), [['E'], ['N', 'N']]⟩], true, some 'N', 8⟩⟩).cells c
          = valAt (Machine.st ⟨.growing, ⟨[[1, 1, 1, 1, 1], [1, 0, 1, 0, 1], [1, 0, 0, 0, 1],
        [1, 0, 0, 0, 1], [1, 1, 2, 1, 1]],
      [((1 : ℤ), (2 : ℤ)), ((0 : ℤ), (2 : ℤ))],
      [⟨((0 : ℤ), (2 : ℤ)), [['S']]⟩], false, none, 0⟩⟩).cells c)
    ∧ (∀ c : Cell, valAt (Machine.st ⟨.done, ⟨[[1, 1, 1, 1, 1], [1, 1, 1, 1, 1], [1, 1, 1, 1, 1],
        [1, 1, 1, 1, 1], [1, 1, 2, 1, 1]],
      [((1 : ℤ), (2 : ℤ)), ((0 : ℤ), (2 : ℤ))],
      [⟨((0 : ℤ), (2 : ℤ)), [['S', 'S', 'S', 'S']]⟩,
       ⟨((3 : ℤ), (2 : ℤ)), [['W'], ['N', 'N']]⟩,
       ⟨((3 : ℤ), (2 : ℤ)), [['E'], ['N', 'N']]⟩], true, some 'N', 8⟩⟩).cells c
          = valAt (Machine.st ⟨.growing, ⟨[[1, 1, 1, 1, 1], [1, 0, 1, 0, 1], [1, 0, 0, 0, 1],
        [1, 0, 0, 0, 1], [1, 1, 2, 1, 1]],
      [((1 : ℤ), (2 : ℤ)), ((0 : ℤ), (2 : ℤ))],
      [⟨((0 : ℤ), (2 : ℤ)), [['S']]⟩], false, none, 0⟩⟩).cells c
        ∨ (valAt (Machine.st ⟨.growing, ⟨[[1, 1, 1, 1, 1], [1, 0, 1, 0, 1], [1, 0, 0, 0, 1],
        [1, 0, 0, 0, 1], [1, 1, 2, 1, 1]],
      [((1 : ℤ), (2 : ℤ)), ((0 : ℤ), (2 : ℤ))],
      [⟨((0 : ℤ), (2 : ℤ)), [['S']]⟩], false, none, 0⟩⟩).cells c = 0
          ∧ valAt (Machine.st ⟨.done, ⟨[[1, 1, 1, 1, 1], [1, 1, 1, 1, 1], [1, 1, 1, 1, 1],
        [1, 1, 1, 1, 1], [1, 1, 2, 1, 1]],
      [((1 : ℤ), (2 : ℤ)), ((0 : ℤ), (2 : ℤ))],
      [⟨((0 : ℤ), (2 : ℤ)), [['S', 'S', 'S', 'S']]⟩,
       ⟨((3 : ℤ), (2 : ℤ)), [['W'], ['N', 'N']]⟩,
       ⟨((3 : ℤ), (2 : ℤ)), [['E'], ['N', 'N']]⟩], true, some 'N', 8⟩⟩).cells c = 1)) :=
  C8_run_grid_invariants 3 3 "side" none 0 none (fun _ => 0)
    ⟨.growing, ⟨[[1, 1, 1, 1, 1], [1, 0, 1, 0, 1], [1, 0, 0, 0, 1],
        [1, 0, 0, 0, 1], [1, 1, 2, 1, 1]],
      [((1 : ℤ), (2 : ℤ)), ((0 : ℤ), (2 : ℤ))],
      [⟨((0 : ℤ), (2 : ℤ)), [['S']]⟩], false, none, 0⟩⟩
    ⟨.done, ⟨[[1, 1, 1, 1, 1], [1, 1, 1, 1, 1], [1, 1, 1, 1, 1],
        [1, 1, 1, 1, 1], [1, 1, 2, 1, 1]],
      [((1 : ℤ), (2 : ℤ)), ((0 : ℤ), (2 : ℤ))],
      [⟨((0 : ℤ), (2 : ℤ)), [['S', 'S', 'S', 'S']]⟩,
       ⟨((3 : ℤ), (2 : ℤ)), [['W'], ['N', 'N']]⟩,
       ⟨((3 : ℤ), (2 : ℤ)), [['E'], ['N', 'N']]⟩], true, some 'N', 8⟩⟩ ((4 : ℤ), (2 : ℤ)) 60
    (by decide) (by decide) (by decide) (by decide) (by decide) (by decide)

/-- Witness for C4 at the 3×3 side-exit scenario with the constant random
source: the completed run records exactly one exit stub, at the end of its
fragment, with the exit never stacked and the exit set unchanged. -/
theorem C4_exit_stub_accounting_witness :
    ((Machine.st ⟨.done, ⟨[[1, 1, 1, 1, 1], [1, 1, 1, 1, 1], [1, 1, 1, 1, 1],
        [1, 1, 1, 1, 1], [1, 1, 2, 1, 1]],
      [((1 : ℤ), (2 : ℤ)), ((0 : ℤ), (2 : ℤ))],
      [⟨((0 : ℤ), (2 : ℤ)), [['S', 'S', 'S', 'S']]⟩,
       ⟨((3 : ℤ), (2 : ℤ)), [['W'], ['N', 'N']]⟩,
       ⟨((3 : ℤ), (2 : ℤ)), [['E'], ['N', 'N']]⟩], true, some 'N', 8⟩⟩).paths.map
        (exitStepCnt (Machine.st ⟨.growing, ⟨[[1, 1, 1, 1, 1], [1, 0, 1, 0, 1], [1, 0, 0, 0, 1],
        [1, 0, 0, 0, 1], [1, 1, 2, 1, 1]],
      [((1 : ℤ), (2 : ℤ)), ((0 : ℤ), (2 : ℤ))],
      [⟨((0 : ℤ), (2 : ℤ)), [['S']]⟩], false, none, 0⟩⟩).cells)).sum
      = (if (Machine.st ⟨.done, ⟨[[1, 1, 1, 1, 1], [1, 1, 1, 1, 1], [1, 1, 1, 1, 1],
        [1, 1, 1, 1, 1], [1, 1, 2, 1, 1]],
      [((1 : ℤ), (2 : ℤ)), ((0 : ℤ), (2 : ℤ))],
      [⟨((0 : ℤ), (2 : ℤ)), [['S', 'S', 'S', 'S']]⟩,
       ⟨((3 : ℤ), (2 : ℤ)), [['W'], ['N', 'N']]⟩,
       ⟨((3 : ℤ), (2 : ℤ)), [['E'], ['N', 'N']]⟩], true, some 'N', 8⟩⟩).found_exit then 1 else 0)
    ∧ (∀ p ∈ (Machine.st ⟨.done, ⟨[[1, 1, 1, 1, 1], [1, 1, 1, 1, 1], [1, 1, 1, 1, 1],
        [1, 1, 1, 1, 1], [1, 1, 2, 1, 1]],
      [((1 : ℤ), (2 : ℤ)), ((0 : ℤ), (2 : ℤ))],
      [⟨((0 : ℤ), (2 : ℤ)), [['S', 'S', 'S', 'S']]⟩,
       ⟨((3 : ℤ), (2 : ℤ)), [['W'], ['N', 'N']]⟩,
       ⟨((3 : ℤ), (2 : ℤ)), [['E'], ['N', 'N']]⟩], true, some 'N', 8⟩⟩).paths,
        ∀ i : ℕ, i < (fragTargets rectDelta p).length →
        valAt (Machine.st ⟨.growing, ⟨[[1, 1, 1, 1, 1], [1, 0, 1, 0, 1], [1, 0, 0, 0, 1],
        [1, 0, 0, 0, 1], [1, 1, 2, 1, 1]],
      [((1 : ℤ), (2 : ℤ)), ((0 : ℤ), (2 : ℤ))],
      [⟨((0 : ℤ), (2 : ℤ)), [['S']]⟩], false, none, 0⟩⟩).cells
            ((fragTargets rectDelta p).getD i ((0 : ℤ), (0 : ℤ))) = 2
        → i + 1 = (fragTargets rectDelta p).length)
    ∧ (∀ c ∈ (Machine.st ⟨.done, ⟨[[1, 1, 1, 1, 1], [1, 1, 1, 1, 1], [1, 1, 1, 1, 1],
        [1, 1, 1, 1, 1], [1, 1, 2, 1, 1]],
      [((1 : ℤ), (2 : ℤ)), ((0 : ℤ), (2 : ℤ))],
      [⟨((0 : ℤ), (2 : ℤ)), [['S', 'S', 'S', 'S']]⟩,
       ⟨((3 : ℤ), (2 : ℤ)), [['W'], ['N', 'N']]⟩,
       ⟨((3 : ℤ), (2 : ℤ)), [['E'], ['N', 'N']]⟩], true, some 'N', 8⟩⟩).stack,
        valAt (Machine.st ⟨.growing, ⟨[[1, 1, 1, 1, 1], [1, 0, 1, 0, 1], [1, 0, 0, 0, 1],
        [1, 0, 0, 0, 1], [1, 1, 2, 1, 1]],
      [((1 : ℤ), (2 : ℤ)), ((0 : ℤ), (2 : ℤ))],
      [⟨((0 : ℤ), (2 : ℤ)), [['S']]⟩], false, none, 0⟩⟩).cells c ≠ 2)
    ∧ (∀ c : Cell, valAt (Machine.st ⟨.done, ⟨[[1, 1, 1, 1, 1], [1, 1, 1, 1, 1], [1, 1, 1, 1, 1],
        [1, 1, 1, 1, 1], [1, 1, 2, 1, 1]],
      [((1 : ℤ), (2 : ℤ)), ((0 : ℤ), (2 : ℤ))],
      [⟨((0 : ℤ), (2 : ℤ)), [['S', 'S', 'S', 'S']]⟩,
       ⟨((3 : ℤ), (2 : ℤ)), [['W'], ['N', 'N']]⟩,
       ⟨((3 : ℤ), (2 : ℤ)), [['E'], ['N', 'N']]⟩], true, some 'N', 8⟩⟩).cells c = 2
        ↔ valAt (Machine.st ⟨.growing, ⟨[[1, 1, 1, 1, 1], [1, 0, 1, 0, 1], [1, 0, 0, 0, 1],
        [1, 0, 0, 0, 1], [1, 1, 2, 1, 1]],
      [((1 : ℤ), (2 : ℤ)), ((0 : ℤ), (2 : ℤ))],
      [⟨((0 : ℤ), (2 : ℤ)), [['S']]⟩], false, none, 0⟩⟩).cells c = 2)
    ∧ countVal (Machine.st ⟨.done, ⟨[[1, 1, 1, 1, 1], [1, 1, 1, 1, 1], [1, 1, 1, 1, 1],
        [1, 1, 1, 1, 1], [1, 1, 2, 1, 1]],
      [((1 : ℤ), (2 : ℤ)), ((0 : ℤ), (2 : ℤ))],
      [⟨((0 : ℤ), (2 : ℤ)), [['S', 'S', 'S', 'S']]⟩,
       ⟨((3 : ℤ), (2 : ℤ)), [['W'], ['N', 'N']]⟩,
       ⟨((3 : ℤ), (2 : ℤ)), [['E'], ['N', 'N']]⟩], true, some 'N', 8⟩⟩).cells 2
        = countVal (Machine.st ⟨.growing, ⟨[[1, 1, 1, 1, 1], [1, 0, 1, 0, 1], [1, 0, 0, 0, 1],
        [1, 0, 0, 0, 1], [1, 1, 2, 1, 1]],
      [((1 : ℤ), (2 : ℤ)), ((0 : ℤ), (2 : ℤ))],
      [⟨((0 : ℤ), (2 : ℤ)), [['S']]⟩], false, none, 0⟩⟩).cells 2 :=
  C4_exit_stub_accounting 3 3 "side" none 0 none (fun _ => 0)
    ⟨.growing, ⟨[[1, 1, 1, 1, 1], [1, 0, 1, 0, 1], [1, 0, 0, 0, 1],
        [1, 0, 0, 0, 1], [1, 1, 2, 1, 1]],
      [((1 : ℤ), (2 : ℤ)), ((0 : ℤ), (2 : ℤ))],
      [⟨((0 : ℤ), (2 : ℤ)), [['S']]⟩], false, none, 0⟩⟩
    ⟨.done, ⟨[[1, 1, 1, 1, 1], [1, 1, 1, 1, 1], [1, 1, 1, 1, 1],
        [1, 1, 1, 1, 1], [1, 1, 2, 1, 1]],
      [((1 : ℤ), (2 : ℤ)), ((0 : ℤ), (2 : ℤ))],
      [⟨((0 : ℤ), (2 : ℤ)), [['S', 'S', 'S', 'S']]⟩,
       ⟨((3 : ℤ), (2 : ℤ)), [['W'], ['N', 'N']]⟩,
       ⟨((3 : ℤ), (2 : ℤ)), [['E'], ['N', 'N']]⟩], true, some 'N', 8⟩⟩ ((4 : ℤ), (2 : ℤ)) 60
    (by decide) (by decide) (by decide) (by decide) (by decide)

end GM
